import Mathlib

set_option maxHeartbeats 1600000
set_option linter.unreachableTactic false
set_option linter.unusedTactic false
set_option linter.unusedVariables false

/-!
Verification of the session/authentication subsystem of the psyslop-landing
repository: `src/lib/server/sso-auth.ts`, the Keycloak verifier module,
`src/hooks.server.ts`, and the legacy auth module preserved alongside
`src/lib/server/hit-metrics.ts`.

Modelling conventions (shallow embedding):
* JS numbers holding millisecond timestamps are modelled as `Int`; every
  number the audited code manipulates is integral.
* Byte strings (Node `Buffer`) are modelled as `List Nat` whose elements are
  `< 256`.
* Library calls (`Buffer.from`, `JSON.parse`, `encodeURIComponent`,
  `decodeURIComponent`) are modelled by executable Lean functions.  Decoders
  are strict (`Option`-returning); a `none` plays the role of the exception
  that the surrounding `try`/`catch` of the source swallows.
* Mutable module state (the access-token cache) is passed explicitly; network
  calls (`fetch` against the identity provider, `jwtVerify` against the JWKS
  endpoint) are oracles passed as parameters, and the functions report
  whether such a call was performed.
-/

namespace SSO

/-- Decimal digit character (`0`..`9`) for `n < 10`; used by the model of
JavaScript number-to-string conversion inside `JSON.stringify`. -/
def digitChar (n : Nat) : Char := Char.ofNat (48 + n)

/-- Fuel-indexed decimal printer (structural recursion keeps every use
kernel-computable; with fuel at least `n` the fallback branch is
unreachable). -/
def natToDecAux : Nat → Nat → List Char
  | 0, n => [digitChar n]
  | fuel+1, n =>
    if n < 10 then [digitChar n]
    else natToDecAux fuel (n / 10) ++ [digitChar (n % 10)]

/-- Decimal representation of a natural number, most significant digit first.
Extensionally equal to JavaScript's number-to-string conversion on
non-negative integers (which is what `JSON.stringify` emits for the integral
timestamps stored in the refresh cookie). -/
def natToDec (n : Nat) : List Char := natToDecAux n n

theorem natToDecAux_congr :
    ∀ n f1 f2, n ≤ f1 → n ≤ f2 → natToDecAux f1 n = natToDecAux f2 n := by
  intro n
  induction n using Nat.strong_induction_on with
  | _ n ih =>
    intro f1 f2 h1 h2
    by_cases hn : n < 10
    · cases f1 <;> cases f2 <;> simp [natToDecAux, hn]
    · cases f1 with
      | zero => omega
      | succ g1 =>
        cases f2 with
        | zero => omega
        | succ g2 =>
          rw [natToDecAux, natToDecAux, if_neg hn, if_neg hn]
          congr 1
          exact ih (n / 10) (Nat.div_lt_self (by omega) (by omega)) g1 g2
            (by omega) (by omega)

theorem natToDec_eq (n : Nat) :
    natToDec n =
      if n < 10 then [digitChar n]
      else natToDec (n / 10) ++ [digitChar (n % 10)] := by
  by_cases hn : n < 10
  · rw [if_pos hn, natToDec]
    cases n with
    | zero => rfl
    | succ m => rw [natToDecAux, if_pos hn]
  · rw [if_neg hn]
    obtain ⟨m, rfl⟩ : ∃ m, n = m + 1 := ⟨n - 1, by omega⟩
    rw [natToDec, natToDec, natToDecAux, if_neg hn]
    congr 1
    exact natToDecAux_congr ((m + 1) / 10) m ((m + 1) / 10) (by omega) (by omega)

/-- `true` on the ASCII decimal digits. -/
def isDigitChar (c : Char) : Bool := 48 ≤ c.toNat && c.toNat ≤ 57

/-- Digit-run accumulator of the number grammar of the `JSON.parse` model. -/
def parseDigitsLoop (acc : Nat) : List Char → Nat × List Char
  | [] => (acc, [])
  | c :: rest =>
    if isDigitChar c then parseDigitsLoop (acc * 10 + (c.toNat - 48)) rest
    else (acc, c :: rest)

/-- Parse a non-empty digit run into a natural number. -/
def parseNat (l : List Char) : Option (Nat × List Char) :=
  match l with
  | c :: _ => if isDigitChar c then some (parseDigitsLoop 0 l) else none
  | [] => none

/-- JS integer-to-string conversion for possibly negative integers. -/
def intToDec (n : Int) : List Char :=
  if n < 0 then '-' :: natToDec (-n).toNat else natToDec n.toNat

/-- Number production of the `JSON.parse` model, restricted to the integers
the audited code ever serialises (no fractions/exponents are modelled; the
cookie codec only ever emits integral millisecond timestamps). -/
def parseIntJson (l : List Char) : Option (Int × List Char) :=
  match l with
  | c :: rest =>
    if c = '-' then (parseNat rest).map (fun p => (-(p.1 : Int), p.2))
    else (parseNat l).map (fun p => ((p.1 : Int), p.2))
  | [] => none

theorem digitChar_toNat {n : Nat} (h : n < 10) : (digitChar n).toNat = 48 + n := by
  interval_cases n <;> decide

theorem isDigitChar_digitChar {n : Nat} (h : n < 10) :
    isDigitChar (digitChar n) = true := by
  interval_cases n <;> decide

theorem natToDec_all_digits : ∀ n, ∀ c ∈ natToDec n, isDigitChar c = true := by
  intro n
  induction n using Nat.strong_induction_on with
  | _ n ih =>
    intro c hc
    rw [natToDec_eq] at hc
    by_cases h : n < 10
    · simp [h] at hc
      subst hc; exact isDigitChar_digitChar h
    · simp [h] at hc
      rcases hc with hc | hc
      · exact ih (n / 10) (Nat.div_lt_self (by omega) (by omega)) c hc
      · subst hc; exact isDigitChar_digitChar (Nat.mod_lt _ (by omega))

theorem natToDec_ne_nil (n : Nat) : natToDec n ≠ [] := by
  rw [natToDec_eq]
  by_cases h : n < 10 <;> simp [h]

theorem parseDigitsLoop_natToDec :
    ∀ n acc rest, parseDigitsLoop acc (natToDec n ++ rest) =
      parseDigitsLoop (acc * 10 ^ (natToDec n).length + n) rest := by
  intro n
  induction n using Nat.strong_induction_on with
  | _ n ih =>
    intro acc rest
    by_cases h : n < 10
    · rw [natToDec_eq, if_pos h]
      simp only [List.singleton_append, List.length_singleton, pow_one]
      rw [parseDigitsLoop, if_pos (isDigitChar_digitChar h), digitChar_toNat h]
      congr 1
      omega
    · rw [natToDec_eq, if_neg h]
      rw [List.append_assoc, List.singleton_append,
        ih (n / 10) (Nat.div_lt_self (by omega) (by omega))]
      have h10 : n % 10 < 10 := Nat.mod_lt _ (by omega)
      rw [parseDigitsLoop, if_pos (isDigitChar_digitChar h10), digitChar_toNat h10]
      simp only [List.length_append, List.length_singleton]
      congr 1
      have hp : 10 ^ ((natToDec (n / 10)).length + 1) =
          10 ^ (natToDec (n / 10)).length * 10 := pow_succ 10 _
      rw [hp]
      have : (48 + n % 10 - 48) = n % 10 := by omega
      rw [this]
      have hmod : n / 10 * 10 + n % 10 = n := by omega
      ring_nf
      omega

theorem parseDigitsLoop_stop {acc : Nat} {rest : List Char}
    (h : ∀ c, rest.head? = some c → isDigitChar c = false) :
    parseDigitsLoop acc rest = (acc, rest) := by
  cases rest with
  | nil => rfl
  | cons c t =>
    rw [parseDigitsLoop, if_neg]
    simp [h c rfl]

theorem parseNat_natToDec (n : Nat) (rest : List Char)
    (h : ∀ c, rest.head? = some c → isDigitChar c = false) :
    parseNat (natToDec n ++ rest) = some (n, rest) := by
  obtain ⟨c, t, hct⟩ : ∃ c t, natToDec n = c :: t := by
    cases hnil : natToDec n with
    | nil => exact absurd hnil (natToDec_ne_nil n)
    | cons c t => exact ⟨c, t, rfl⟩
  have hc : isDigitChar c = true := natToDec_all_digits n c (by rw [hct]; simp)
  rw [hct, List.cons_append]
  simp only [parseNat, hc, if_true]
  rw [← List.cons_append, ← hct, parseDigitsLoop_natToDec,
    Nat.zero_mul, Nat.zero_add, parseDigitsLoop_stop h]

theorem isDigitChar_false_of_not_digit {c : Char}
    (h : c.toNat < 48 ∨ 57 < c.toNat) : isDigitChar c = false := by
  simp only [isDigitChar, Bool.and_eq_false_iff, decide_eq_false_iff_not]
  omega

theorem natToDec_head_ne_dash (n : Nat) :
    ∀ c, (natToDec n).head? = some c → c ≠ '-' := by
  intro c hc heq
  obtain ⟨t, ht⟩ : ∃ t, natToDec n = c :: t := by
    cases hnil : natToDec n with
    | nil => exact absurd hnil (natToDec_ne_nil n)
    | cons d t => rw [hnil] at hc; simp at hc; exact ⟨t, by rw [hc]⟩
  have := natToDec_all_digits n c (by rw [ht]; simp)
  subst heq
  exact absurd this (by decide)

theorem parseIntJson_intToDec (n : Int) (rest : List Char)
    (h : ∀ c, rest.head? = some c → isDigitChar c = false) :
    parseIntJson (intToDec n ++ rest) = some (n, rest) := by
  rw [intToDec]
  by_cases hn : n < 0
  · simp only [if_pos hn, List.cons_append]
    simp only [parseIntJson, if_pos rfl]
    rw [parseNat_natToDec _ _ h]
    simp only [Option.map_some']
    have : ((-n).toNat : Int) = -n := Int.toNat_of_nonneg (by omega)
    rw [this]; simp
  · simp only [if_neg hn]
    obtain ⟨c, t, hct⟩ : ∃ c t, natToDec n.toNat = c :: t := by
      cases hnil : natToDec n.toNat with
      | nil => exact absurd hnil (natToDec_ne_nil _)
      | cons c t => exact ⟨c, t, rfl⟩
    rw [hct, List.cons_append]
    have hcd : c ≠ '-' := natToDec_head_ne_dash n.toNat c (by rw [hct]; simp)
    simp only [parseIntJson, hcd, if_false]
    rw [← List.cons_append, ← hct, parseNat_natToDec _ _ h]
    simp only [Option.map_some']
    congr 1
    rw [Int.toNat_of_nonneg (by omega)]

/-- Lowercase hexadecimal digit, as emitted by `JSON.stringify` in `\u00XX`
escapes of control characters. -/
def hexDigitChar (n : Nat) : Char :=
  if n < 10 then Char.ofNat (48 + n) else Char.ofNat (87 + n)

/-- Hexadecimal digit value; `JSON.parse` accepts both letter cases. -/
def hexVal (c : Char) : Option Nat :=
  if 48 ≤ c.toNat ∧ c.toNat ≤ 57 then some (c.toNat - 48)
  else if 97 ≤ c.toNat ∧ c.toNat ≤ 102 then some (c.toNat - 87)
  else if 65 ≤ c.toNat ∧ c.toNat ≤ 70 then some (c.toNat - 55)
  else none

/-- Escape of a single character inside a JSON string literal, exactly as
`JSON.stringify` emits it: the two-character escapes for quote, backslash,
backspace, form feed, newline, carriage return and tab, `\u00xx` for the
remaining control characters, and the character itself otherwise. -/
def escapeJsonChar (c : Char) : List Char :=
  if c = '"' then ['\\', '"']
  else if c = '\\' then ['\\', '\\']
  else if c = Char.ofNat 8 then ['\\', 'b']
  else if c = Char.ofNat 12 then ['\\', 'f']
  else if c = Char.ofNat 10 then ['\\', 'n']
  else if c = Char.ofNat 13 then ['\\', 'r']
  else if c = Char.ofNat 9 then ['\\', 't']
  else if c.toNat < 32 then
    ['\\', 'u', '0', '0', hexDigitChar (c.toNat / 16), hexDigitChar (c.toNat % 16)]
  else [c]

/-- Body of a JSON string literal escape loop (`JSON.stringify`). -/
def escapeJsonString : List Char → List Char
  | [] => []
  | c :: t => escapeJsonChar c ++ escapeJsonString t

/-- A complete JSON string literal for `l`, quotes included. -/
def quoteJsonString (l : List Char) : List Char :=
  '"' :: (escapeJsonString l ++ ['"'])

/-- String-literal production of the `JSON.parse` model; the opening quote has
already been consumed.  Lone-surrogate `\uXXXX` escapes (which JavaScript's
UTF-16 strings can represent but Lean's scalar-value strings cannot) are
rejected; `JSON.stringify` never emits them for the data modelled here. -/
def parseJsonStringBody : List Char → Option (List Char × List Char)
  | [] => none
  | c :: rest =>
    if c = '"' then some ([], rest)
    else if c = '\\' then
      match rest with
      | [] => none
      | e :: rest2 =>
        if e = '"' then (parseJsonStringBody rest2).map (fun p => ('"' :: p.1, p.2))
        else if e = '\\' then (parseJsonStringBody rest2).map (fun p => ('\\' :: p.1, p.2))
        else if e = '/' then (parseJsonStringBody rest2).map (fun p => ('/' :: p.1, p.2))
        else if e = 'b' then (parseJsonStringBody rest2).map (fun p => (Char.ofNat 8 :: p.1, p.2))
        else if e = 'f' then (parseJsonStringBody rest2).map (fun p => (Char.ofNat 12 :: p.1, p.2))
        else if e = 'n' then (parseJsonStringBody rest2).map (fun p => (Char.ofNat 10 :: p.1, p.2))
        else if e = 'r' then (parseJsonStringBody rest2).map (fun p => (Char.ofNat 13 :: p.1, p.2))
        else if e = 't' then (parseJsonStringBody rest2).map (fun p => (Char.ofNat 9 :: p.1, p.2))
        else if e = 'u' then
          match rest2 with
          | h1 :: h2 :: h3 :: h4 :: rest3 =>
            match hexVal h1, hexVal h2, hexVal h3, hexVal h4 with
            | some a, some b, some c2, some d =>
              let n := ((a * 16 + b) * 16 + c2) * 16 + d
              if Nat.isValidChar n then
                (parseJsonStringBody rest3).map (fun p => (Char.ofNat n :: p.1, p.2))
              else none
            | _, _, _, _ => none
          | _ => none
        else none
    else if c.toNat < 32 then none
    else (parseJsonStringBody rest).map (fun p => (c :: p.1, p.2))

theorem hexVal_hexDigitChar {n : Nat} (h : n < 16) :
    hexVal (hexDigitChar n) = some n := by
  interval_cases n <;> decide

theorem parseJsonStringBody_escape (l : List Char) (rest : List Char) :
    parseJsonStringBody (escapeJsonString l ++ ('"' :: rest)) = some (l, rest) := by
  induction l with
  | nil =>
    rw [escapeJsonString, List.nil_append, parseJsonStringBody.eq_def]
    simp
  | cons c t ih =>
    rw [escapeJsonString, escapeJsonChar, List.append_assoc]
    by_cases h1 : c = '"'
    · subst h1
      simp only [if_pos rfl, List.cons_append, List.nil_append]
      rw [parseJsonStringBody.eq_def]; simp [ih]
    by_cases h2 : c = '\\'
    · subst h2
      simp only [h1, if_false, if_pos rfl, List.cons_append, List.nil_append]
      rw [parseJsonStringBody.eq_def]; simp [ih]
    by_cases h3 : c = Char.ofNat 8
    · subst h3
      simp only [h1, h2, if_false, if_pos rfl, List.cons_append, List.nil_append]
      rw [parseJsonStringBody.eq_def]; simp [ih]
    by_cases h4 : c = Char.ofNat 12
    · subst h4
      simp only [h1, h2, h3, if_false, if_pos rfl, List.cons_append, List.nil_append]
      rw [parseJsonStringBody.eq_def]; simp [ih]
    by_cases h5 : c = Char.ofNat 10
    · subst h5
      simp only [h1, h2, h3, h4, if_false, if_pos rfl, List.cons_append, List.nil_append]
      rw [parseJsonStringBody.eq_def]; simp [ih]
    by_cases h6 : c = Char.ofNat 13
    · subst h6
      simp only [h1, h2, h3, h4, h5, if_false, if_pos rfl, List.cons_append,
        List.nil_append]
      rw [parseJsonStringBody.eq_def]; simp [ih]
    by_cases h7 : c = Char.ofNat 9
    · subst h7
      simp only [h1, h2, h3, h4, h5, h6, if_false, if_pos rfl, List.cons_append,
        List.nil_append]
      rw [parseJsonStringBody.eq_def]; simp [ih]
    by_cases h8 : c.toNat < 32
    · have hvalid : Nat.isValidChar c.toNat := Or.inl (by omega)
      have e0 : hexVal '0' = some 0 := by decide
      have ed : hexVal (hexDigitChar (c.toNat / 16)) = some (c.toNat / 16) :=
        hexVal_hexDigitChar (by omega)
      have em : hexVal (hexDigitChar (c.toNat % 16)) = some (c.toNat % 16) :=
        hexVal_hexDigitChar (by omega)
      have hv2 : c.toNat / 16 * 16 + c.toNat % 16 = c.toNat := by omega
      have hchar : Char.ofNat c.toNat = c := Char.ofNat_toNat c
      simp only [h1, h2, h3, h4, h5, h6, h7, if_false, if_pos h8, List.cons_append,
        List.nil_append]
      rw [parseJsonStringBody.eq_def]
      simp [e0, ed, em, hv2, hvalid, hchar, ih]
    · simp only [h1, h2, h3, h4, h5, h6, h7, h8, if_false, List.singleton_append,
        List.cons_append]
      rw [parseJsonStringBody.eq_def]
      simp [h1, h2, h8, ih]

/-- JSON values, as produced by the `JSON.parse` model.  Numbers are
modelled as integers: every number the audited code reads or writes
(millisecond timestamps, `exp` claims) is integral. -/
inductive Json where
  | null : Json
  | bool : Bool → Json
  | num : Int → Json
  | str : String → Json
  | arr : List Json → Json
  | obj : List (String × Json) → Json

/-- Opening brace character, kept out of string literals. -/
def lbraceChar : Char := Char.ofNat 123

/-- Closing brace character. -/
def rbraceChar : Char := Char.ofNat 125

/-- JavaScript object-property assignment: a duplicate key overwrites the
value in place, a fresh key is appended in insertion order (the semantics
`JSON.parse` uses for object members). -/
def objInsert (fields : List (String × Json)) (k : String) (v : Json) :
    List (String × Json) :=
  if fields.any (fun p => p.1 == k) then
    fields.map (fun p => if p.1 == k then (k, v) else p)
  else fields ++ [(k, v)]

/-- JavaScript property lookup on a decoded JSON object. -/
def jsLookup (fields : List (String × Json)) (k : String) : Option Json :=
  (fields.find? (fun p => p.1 == k)).map (fun p => p.2)

mutual
/-- Value production of the `JSON.parse` model.  The `fuel` argument only
bounds nesting recursion; callers pass `input length + 1`, which can never be
exhausted because every recursive production consumes at least one character
first.  Inter-token whitespace is not modelled (none of the documents the
audited code produces or that the theorems below evaluate contain any). -/
def parseJsonValue : Nat → List Char → Option (Json × List Char)
  | 0, _ => none
  | fuel+1, l =>
    match l with
    | [] => none
    | c :: rest =>
      if c = '"' then
        (parseJsonStringBody rest).map (fun p => (Json.str (String.mk p.1), p.2))
      else if c = lbraceChar then
        match rest with
        | d :: rest2 =>
          if d = rbraceChar then some (Json.obj [], rest2)
          else parseJsonMembers fuel rest []
        | [] => none
      else if c = '[' then
        match rest with
        | d :: rest2 =>
          if d = ']' then some (Json.arr [], rest2)
          else parseJsonItems fuel rest []
        | [] => none
      else if c = 'n' then
        match rest with
        | 'u' :: 'l' :: 'l' :: r => some (Json.null, r)
        | _ => none
      else if c = 't' then
        match rest with
        | 'r' :: 'u' :: 'e' :: r => some (Json.bool true, r)
        | _ => none
      else if c = 'f' then
        match rest with
        | 'a' :: 'l' :: 's' :: 'e' :: r => some (Json.bool false, r)
        | _ => none
      else (parseIntJson l).map (fun p => (Json.num p.1, p.2))

/-- Object-member production (after the opening brace, non-empty object). -/
def parseJsonMembers : Nat → List Char → List (String × Json) →
    Option (Json × List Char)
  | 0, _, _ => none
  | fuel+1, l, acc =>
    match l with
    | '"' :: r =>
      match parseJsonStringBody r with
      | none => none
      | some (kcs, r1) =>
        match r1 with
        | ':' :: r2 =>
          match parseJsonValue fuel r2 with
          | none => none
          | some (v, r3) =>
            match r3 with
            | ',' :: r4 => parseJsonMembers fuel r4 (objInsert acc (String.mk kcs) v)
            | c :: r4 =>
              if c = rbraceChar then
                some (Json.obj (objInsert acc (String.mk kcs) v), r4)
              else none
            | [] => none
        | _ => none
    | _ => none

/-- Array-item production (after the opening bracket, non-empty array). -/
def parseJsonItems : Nat → List Char → List Json → Option (Json × List Char)
  | 0, _, _ => none
  | fuel+1, l, acc =>
    match parseJsonValue fuel l with
    | none => none
    | some (v, r) =>
      match r with
      | ',' :: r2 => parseJsonItems fuel r2 (acc ++ [v])
      | c :: r2 => if c = ']' then some (Json.arr (acc ++ [v]), r2) else none
      | [] => none
end

/-- Model of `JSON.parse` on a character list: parse one value consuming the
entire input. -/
def jsonParseChars (l : List Char) : Option Json :=
  match parseJsonValue (l.length + 1) l with
  | some (v, []) => some v
  | _ => none

/-- JavaScript truthiness on decoded JSON values (`null`, `false`, `0` and
the empty string are falsy). -/
def jsFalsy : Json → Bool
  | Json.null => true
  | Json.bool b => !b
  | Json.num n => n == 0
  | Json.str s => s == ""
  | Json.arr _ => false
  | Json.obj _ => false

/-- The persistent refresh-session payload (`type RefreshCookie` in
`sso-auth.ts`): `{ refresh_token: string; refresh_expires_at: number | null }`. -/
structure RefreshCookie where
  refresh_token : String
  refresh_expires_at : Option Int
deriving DecidableEq, Repr

theorem stringMk_data (s : String) : String.mk s.data = s := by
  cases s; rfl

/-- Serialisation of the `refresh_expires_at` field (`JSON.stringify` prints
`null` for a null field and the decimal integer otherwise). -/
def refreshExpiresJsonChars : Option Int → List Char
  | some n => intToDec n
  | none => ['n', 'u', 'l', 'l']

/-- The JSON value `JSON.parse` recovers for the `refresh_expires_at` field. -/
def refreshExpiresVal : Option Int → Json
  | some n => Json.num n
  | none => Json.null

/-- `JSON.stringify({ refresh_token: …, refresh_expires_at: … })`, property
order being the object-literal insertion order used in `storeRefresh`.  The
two keys contain no characters needing escapes, so their literals are quoted
verbatim; the token value goes through the full string-escape production. -/
def refreshCookieJsonChars (v : RefreshCookie) : List Char :=
  lbraceChar :: ('"' :: ("refresh_token".data ++ ('"' :: (':' ::
    (quoteJsonString v.refresh_token.data ++ (',' :: ('"' ::
      ("refresh_expires_at".data ++ ('"' :: (':' ::
        (refreshExpiresJsonChars v.refresh_expires_at ++ [rbraceChar])))))))))))

/-- Model of `safeJsonParse<RefreshCookie>`: `JSON.parse` followed by the
unchecked TypeScript cast down to the `RefreshCookie` shape.  The cast does
no runtime validation; the decoded value is only used through the truthiness
of `refresh_token` and comparisons on `refresh_expires_at`, which is what
this extraction preserves.  Documents that do not carry a string
`refresh_token` inside an object decode to `none` (every cookie value the
theorems below decode was produced by `JSON.stringify` of a genuine
`RefreshCookie`, for which the model is exact). -/
def safeJsonParseRefreshCookie (l : List Char) : Option RefreshCookie :=
  match jsonParseChars l with
  | some (Json.obj fields) =>
    match jsLookup fields "refresh_token" with
    | some (Json.str t) =>
      some { refresh_token := t,
             refresh_expires_at :=
               match jsLookup fields "refresh_expires_at" with
               | some (Json.num n) => some n
               | _ => none }
    | _ => none
  | _ => none

/-- The object value `JSON.parse` recovers from a serialised refresh cookie. -/
def refreshCookieJsonVal (v : RefreshCookie) : Json :=
  Json.obj [("refresh_token", Json.str v.refresh_token),
    ("refresh_expires_at", refreshExpiresVal v.refresh_expires_at)]

theorem parseJsonValue_quoted (f : Nat) (s : String) (r : List Char) :
    parseJsonValue (f + 1) (quoteJsonString s.data ++ r) = some (Json.str s, r) := by
  rw [quoteJsonString, List.cons_append, List.append_assoc, List.singleton_append]
  rw [parseJsonValue.eq_def]
  simp [parseJsonStringBody_escape, stringMk_data]

theorem intToDec_head (n : Int) :
    ∃ c t, intToDec n = c :: t ∧ (c = '-' ∨ isDigitChar c = true) := by
  rw [intToDec]
  by_cases hn : n < 0
  · exact ⟨'-', natToDec (-n).toNat, by simp [hn], Or.inl rfl⟩
  · obtain ⟨c, t, hct⟩ : ∃ c t, natToDec n.toNat = c :: t := by
      cases hnil : natToDec n.toNat with
      | nil => exact absurd hnil (natToDec_ne_nil _)
      | cons c t => exact ⟨c, t, rfl⟩
    refine ⟨c, t, by simp [hn, hct], Or.inr ?_⟩
    exact natToDec_all_digits _ c (by rw [hct]; simp)

theorem parseJsonValue_expires (f : Nat) (e : Option Int) (r : List Char) :
    parseJsonValue (f + 1) (refreshExpiresJsonChars e ++ (rbraceChar :: r)) =
      some (refreshExpiresVal e, rbraceChar :: r) := by
  cases e with
  | none =>
    have h1 : ¬('n' : Char) = lbraceChar := by decide
    have h2 : ¬('u' : Char) = rbraceChar := by decide
    rw [refreshExpiresJsonChars, parseJsonValue.eq_def]
    simp [refreshExpiresVal, h1, h2]
  | some n =>
    obtain ⟨c, t, hct, hc⟩ := intToDec_head n
    have htoNat : c.toNat = 45 ∨ (48 ≤ c.toNat ∧ c.toNat ≤ 57) := by
      rcases hc with hc | hc
      · subst hc; left; decide
      · right; simp only [isDigitChar, Bool.and_eq_true, decide_eq_true_eq] at hc
        omega
    have hne : ∀ d : Char, d.toNat ≠ 45 → 57 < d.toNat ∨ d.toNat < 45 →
        c ≠ d := by
      intro d _ hd heq
      subst heq
      omega
    rw [refreshExpiresJsonChars, hct, List.cons_append, parseJsonValue.eq_def]
    have hq : ¬c = '"' := hne '"' (by decide) (by decide)
    have hb : ¬c = lbraceChar := hne lbraceChar (by decide) (by decide)
    have hk : ¬c = '[' := hne '[' (by decide) (by decide)
    have hn2 : ¬c = 'n' := hne 'n' (by decide) (by decide)
    have ht2 : ¬c = 't' := hne 't' (by decide) (by decide)
    have hf2 : ¬c = 'f' := hne 'f' (by decide) (by decide)
    simp only [hq, hb, hk, hn2, ht2, hf2, if_false]
    rw [← List.cons_append, ← hct, parseIntJson_intToDec n _ (by intro d hd; cases hd; decide)]
    rfl

theorem parseJsonValue_objStep (f : Nat) (t : List Char) :
    parseJsonValue (f + 1) (lbraceChar :: ('"' :: t)) =
      parseJsonMembers f ('"' :: t) [] := by
  have h1 : ¬lbraceChar = '"' := by decide
  have h2 : ¬('"' : Char) = rbraceChar := by decide
  rw [parseJsonValue.eq_def]
  simp [h1, h2]

theorem parseJsonMembers_keyval_cont (fuel : Nat) (kdata tail : List Char)
    (acc : List (String × Json)) (val : Json) (r4 : List Char)
    (he : escapeJsonString kdata = kdata)
    (hv : parseJsonValue fuel tail = some (val, ',' :: r4)) :
    parseJsonMembers (fuel + 1) ('"' :: (kdata ++ ('"' :: (':' :: tail)))) acc =
      parseJsonMembers fuel r4 (objInsert acc (String.mk kdata) val) := by
  conv_lhs => rw [← he]
  rw [parseJsonMembers.eq_def]
  simp [parseJsonStringBody_escape, hv]

theorem parseJsonMembers_keyval_close (fuel : Nat) (kdata tail : List Char)
    (acc : List (String × Json)) (val : Json) (r4 : List Char)
    (he : escapeJsonString kdata = kdata)
    (hv : parseJsonValue fuel tail = some (val, rbraceChar :: r4)) :
    parseJsonMembers (fuel + 1) ('"' :: (kdata ++ ('"' :: (':' :: tail)))) acc =
      some (Json.obj (objInsert acc (String.mk kdata) val), r4) := by
  have hrb : ¬rbraceChar = ',' := by decide
  conv_lhs => rw [← he]
  rw [parseJsonMembers.eq_def]
  simp [parseJsonStringBody_escape, hv, hrb]

theorem parseJsonValue_refreshCookie (f : Nat) (v : RefreshCookie) :
    parseJsonValue (f + 4) (refreshCookieJsonChars v) =
      some (refreshCookieJsonVal v, []) := by
  have e1 : escapeJsonString "refresh_token".data = "refresh_token".data := by decide
  have e2 : escapeJsonString "refresh_expires_at".data = "refresh_expires_at".data := by
    decide
  rw [refreshCookieJsonChars]
  rw [parseJsonValue_objStep (f + 3)]
  rw [parseJsonMembers_keyval_cont (f + 2) _ _ _ (Json.str v.refresh_token) _ e1
    (parseJsonValue_quoted (f + 1) v.refresh_token _)]
  rw [stringMk_data]
  rw [parseJsonMembers_keyval_close (f + 1) _ _ _
    (refreshExpiresVal v.refresh_expires_at) _ e2
    (parseJsonValue_expires f v.refresh_expires_at [])]
  rw [stringMk_data]
  have hb : ("refresh_token" == "refresh_expires_at") = false := by decide
  simp [objInsert, refreshCookieJsonVal, hb]

theorem jsonParseChars_refreshCookie (v : RefreshCookie) :
    jsonParseChars (refreshCookieJsonChars v) = some (refreshCookieJsonVal v) := by
  have hlen : 3 ≤ (refreshCookieJsonChars v).length := by
    rw [refreshCookieJsonChars]
    simp
  rw [jsonParseChars]
  rw [show (refreshCookieJsonChars v).length + 1 =
    ((refreshCookieJsonChars v).length - 3) + 4 by omega]
  rw [parseJsonValue_refreshCookie]

theorem safeJsonParse_refreshCookie (v : RefreshCookie) :
    safeJsonParseRefreshCookie (refreshCookieJsonChars v) = some v := by
  rw [safeJsonParseRefreshCookie, jsonParseChars_refreshCookie]
  have h1 : ("refresh_token" == "refresh_token") = true := by decide
  have h2 : ("refresh_expires_at" == "refresh_token") = false := by decide
  have h3 : ("refresh_expires_at" == "refresh_expires_at") = true := by decide
  cases v with
  | mk t e =>
    cases e with
    | none => simp [refreshCookieJsonVal, jsLookup, h1, h2, h3, refreshExpiresVal]
    | some n => simp [refreshCookieJsonVal, jsLookup, h1, h2, h3, refreshExpiresVal]

/-- UTF-8 encoding of one scalar value (the byte expansion performed by
`Buffer.from(string, 'utf8')`). -/
def utf8EncodeChar (c : Char) : List Nat :=
  let n := c.toNat
  if n < 128 then [n]
  else if n < 2048 then [192 + n / 64, 128 + n % 64]
  else if n < 65536 then [224 + n / 4096, 128 + (n / 64) % 64, 128 + n % 64]
  else [240 + n / 262144, 128 + (n / 4096) % 64, 128 + (n / 64) % 64, 128 + n % 64]

/-- UTF-8 encoding of a character list. -/
def utf8EncodeChars : List Char → List Nat
  | [] => []
  | c :: t => utf8EncodeChar c ++ utf8EncodeChars t

mutual
/-- UTF-8 decoding (model of `buffer.toString('utf8')`), restricted to valid
encodings: malformed input yields `none` where Node would substitute U+FFFD
replacement characters.  The difference is unobservable here — a replacement
character never parses as part of the JSON documents the callers expect, and
every decode the theorems below depend on receives encoder output. -/
def utf8DecodeChars : List Nat → Option (List Char)
  | [] => some []
  | b :: rest =>
    if b < 128 then (utf8DecodeChars rest).map (fun l => Char.ofNat b :: l)
    else if b < 192 then none
    else if b < 224 then utf8Decode2 b rest
    else if b < 240 then utf8Decode3 b rest
    else if b < 248 then utf8Decode4 b rest
    else none

/-- Continuation of a two-byte UTF-8 sequence whose lead byte is `b`. -/
def utf8Decode2 (b : Nat) : List Nat → Option (List Char)
  | b1 :: rest1 =>
    if 128 ≤ b1 ∧ b1 < 192 then
      if 128 ≤ (b - 192) * 64 + (b1 - 128) then
        (utf8DecodeChars rest1).map
          (fun l => Char.ofNat ((b - 192) * 64 + (b1 - 128)) :: l)
      else none
    else none
  | [] => none

/-- Continuation of a three-byte UTF-8 sequence whose lead byte is `b`. -/
def utf8Decode3 (b : Nat) : List Nat → Option (List Char)
  | b1 :: b2 :: rest1 =>
    if (128 ≤ b1 ∧ b1 < 192) ∧ (128 ≤ b2 ∧ b2 < 192) then
      if 2048 ≤ (b - 224) * 4096 + (b1 - 128) * 64 + (b2 - 128) ∧
          Nat.isValidChar ((b - 224) * 4096 + (b1 - 128) * 64 + (b2 - 128)) then
        (utf8DecodeChars rest1).map
          (fun l => Char.ofNat ((b - 224) * 4096 + (b1 - 128) * 64 + (b2 - 128)) :: l)
      else none
    else none
  | _ => none

/-- Continuation of a four-byte UTF-8 sequence whose lead byte is `b`. -/
def utf8Decode4 (b : Nat) : List Nat → Option (List Char)
  | b1 :: b2 :: b3 :: rest1 =>
    if (128 ≤ b1 ∧ b1 < 192) ∧ (128 ≤ b2 ∧ b2 < 192) ∧ (128 ≤ b3 ∧ b3 < 192) then
      if 65536 ≤ (b - 240) * 262144 + (b1 - 128) * 4096 + (b2 - 128) * 64 + (b3 - 128) ∧
          (b - 240) * 262144 + (b1 - 128) * 4096 + (b2 - 128) * 64 + (b3 - 128) < 1114112 then
        (utf8DecodeChars rest1).map
          (fun l =>
            Char.ofNat ((b - 240) * 262144 + (b1 - 128) * 4096 + (b2 - 128) * 64 + (b3 - 128)) :: l)
      else none
    else none
  | _ => none
end

theorem char_valid_nat (c : Char) : Nat.isValidChar c.toNat := c.valid

theorem utf8EncodeChar_lt256 (c : Char) : ∀ b ∈ utf8EncodeChar c, b < 256 := by
  intro b hb
  have hval : c.toNat < 1114112 := by
    rcases char_valid_nat c with h | ⟨h1, h2⟩ <;> omega
  rw [utf8EncodeChar] at hb
  by_cases h1 : c.toNat < 128
  · simp [h1] at hb; omega
  by_cases h2 : c.toNat < 2048
  · simp [h1, h2] at hb; rcases hb with hb | hb <;> omega
  by_cases h3 : c.toNat < 65536
  · simp [h1, h2, h3] at hb; rcases hb with hb | hb | hb <;> omega
  · simp [h1, h2, h3] at hb; rcases hb with hb | hb | hb | hb <;> omega

theorem utf8EncodeChars_lt256 : ∀ l, ∀ b ∈ utf8EncodeChars l, b < 256 := by
  intro l
  induction l with
  | nil => intro b hb; simp [utf8EncodeChars] at hb
  | cons c t ih =>
    intro b hb
    rw [utf8EncodeChars] at hb
    rcases List.mem_append.mp hb with hb | hb
    · exact utf8EncodeChar_lt256 c b hb
    · exact ih b hb

theorem utf8_roundtrip : ∀ l, utf8DecodeChars (utf8EncodeChars l) = some l := by
  intro l
  induction l with
  | nil => rfl
  | cons c t ih =>
    have hv := char_valid_nat c
    have hval : c.toNat < 55296 ∨ (57343 < c.toNat ∧ c.toNat < 1114112) := hv
    have hofn : Char.ofNat c.toNat = c := Char.ofNat_toNat c
    rw [utf8EncodeChars, utf8EncodeChar]
    by_cases h1 : c.toNat < 128
    · rw [if_pos h1]
      rw [List.cons_append, List.nil_append, utf8DecodeChars]
      rw [if_pos h1, ih]
      simp [hofn]
    by_cases h2 : c.toNat < 2048
    · rw [if_neg h1, if_pos h2]
      simp only [List.cons_append, List.nil_append]
      have c1 : ¬(192 + c.toNat / 64 < 128) := by omega
      have c2 : ¬(192 + c.toNat / 64 < 192) := by omega
      have c3 : 192 + c.toNat / 64 < 224 := by omega
      rw [utf8DecodeChars, if_neg c1, if_neg c2, if_pos c3, utf8Decode2]
      have c4 : 128 ≤ 128 + c.toNat % 64 ∧ 128 + c.toNat % 64 < 192 := by omega
      rw [if_pos c4]
      have c5 : (192 + c.toNat / 64 - 192) * 64 + (128 + c.toNat % 64 - 128) =
        c.toNat := by omega
      simp only [c5]
      rw [if_pos (show 128 ≤ c.toNat by omega), ih]
      simp [hofn]
    by_cases h3 : c.toNat < 65536
    · rw [if_neg h1, if_neg h2, if_pos h3]
      simp only [List.cons_append, List.nil_append]
      have c1 : ¬(224 + c.toNat / 4096 < 128) := by omega
      have c2 : ¬(224 + c.toNat / 4096 < 192) := by omega
      have c3 : ¬(224 + c.toNat / 4096 < 224) := by omega
      have c4 : 224 + c.toNat / 4096 < 240 := by omega
      rw [utf8DecodeChars, if_neg c1, if_neg c2, if_neg c3, if_pos c4, utf8Decode3]
      have c5 : (128 ≤ 128 + c.toNat / 64 % 64 ∧ 128 + c.toNat / 64 % 64 < 192) ∧
          (128 ≤ 128 + c.toNat % 64 ∧ 128 + c.toNat % 64 < 192) := by omega
      rw [if_pos c5]
      have c6 : (224 + c.toNat / 4096 - 224) * 4096 +
          (128 + c.toNat / 64 % 64 - 128) * 64 + (128 + c.toNat % 64 - 128) =
          c.toNat := by omega
      simp only [c6]
      rw [if_pos (show 2048 ≤ c.toNat ∧ Nat.isValidChar c.toNat from ⟨by omega, hv⟩), ih]
      simp [hofn]
    · rw [if_neg h1, if_neg h2, if_neg h3]
      simp only [List.cons_append, List.nil_append]
      have c1 : ¬(240 + c.toNat / 262144 < 128) := by omega
      have c2 : ¬(240 + c.toNat / 262144 < 192) := by omega
      have c3 : ¬(240 + c.toNat / 262144 < 224) := by omega
      have c4 : ¬(240 + c.toNat / 262144 < 240) := by omega
      have c5 : 240 + c.toNat / 262144 < 248 := by omega
      rw [utf8DecodeChars, if_neg c1, if_neg c2, if_neg c3, if_neg c4, if_pos c5,
        utf8Decode4]
      have c6 : (128 ≤ 128 + c.toNat / 4096 % 64 ∧ 128 + c.toNat / 4096 % 64 < 192) ∧
          (128 ≤ 128 + c.toNat / 64 % 64 ∧ 128 + c.toNat / 64 % 64 < 192) ∧
          (128 ≤ 128 + c.toNat % 64 ∧ 128 + c.toNat % 64 < 192) := by omega
      rw [if_pos c6]
      have c7 : (240 + c.toNat / 262144 - 240) * 262144 +
          (128 + c.toNat / 4096 % 64 - 128) * 4096 +
          (128 + c.toNat / 64 % 64 - 128) * 64 + (128 + c.toNat % 64 - 128) =
          c.toNat := by omega
      simp only [c7]
      rw [if_pos (show 65536 ≤ c.toNat ∧ c.toNat < 1114112 by omega), ih]
      simp [hofn]

/-- The standard base64 alphabet (RFC 4648), used by Node's `'base64'`. -/
def b64StdChar (n : Nat) : Char :=
  if n < 26 then Char.ofNat (65 + n)
  else if n < 52 then Char.ofNat (97 + (n - 26))
  else if n < 62 then Char.ofNat (48 + (n - 52))
  else if n = 62 then '+' else '/'

/-- The base64url alphabet, used by Node's `'base64url'`. -/
def b64UrlChar (n : Nat) : Char :=
  if n < 62 then b64StdChar n else if n = 62 then '-' else '_'

/-- Sextet value of a standard-alphabet character. -/
def b64StdVal (c : Char) : Option Nat :=
  if 65 ≤ c.toNat ∧ c.toNat ≤ 90 then some (c.toNat - 65)
  else if 97 ≤ c.toNat ∧ c.toNat ≤ 122 then some (c.toNat - 97 + 26)
  else if 48 ≤ c.toNat ∧ c.toNat ≤ 57 then some (c.toNat - 48 + 52)
  else if c = '+' then some 62
  else if c = '/' then some 63
  else none

/-- Sextet value of a base64url-alphabet character. -/
def b64UrlVal (c : Char) : Option Nat :=
  if 65 ≤ c.toNat ∧ c.toNat ≤ 90 then some (c.toNat - 65)
  else if 97 ≤ c.toNat ∧ c.toNat ≤ 122 then some (c.toNat - 97 + 26)
  else if 48 ≤ c.toNat ∧ c.toNat ≤ 57 then some (c.toNat - 48 + 52)
  else if c = '-' then some 62
  else if c = '_' then some 63
  else none

/-- `buffer.toString('base64url')` — base64url alphabet, no padding. -/
def base64UrlEncode : List Nat → List Char
  | b0 :: b1 :: b2 :: rest =>
    b64UrlChar (b0 / 4) :: b64UrlChar ((b0 % 4) * 16 + b1 / 16) ::
      b64UrlChar ((b1 % 16) * 4 + b2 / 64) :: b64UrlChar (b2 % 64) ::
        base64UrlEncode rest
  | [b0, b1] =>
    [b64UrlChar (b0 / 4), b64UrlChar ((b0 % 4) * 16 + b1 / 16),
      b64UrlChar ((b1 % 16) * 4)]
  | [b0] => [b64UrlChar (b0 / 4), b64UrlChar ((b0 % 4) * 16)]
  | [] => []

/-- `buffer.toString('base64')` — standard alphabet, `'='`-padded. -/
def base64StdEncode : List Nat → List Char
  | b0 :: b1 :: b2 :: rest =>
    b64StdChar (b0 / 4) :: b64StdChar ((b0 % 4) * 16 + b1 / 16) ::
      b64StdChar ((b1 % 16) * 4 + b2 / 64) :: b64StdChar (b2 % 64) ::
        base64StdEncode rest
  | [b0, b1] =>
    [b64StdChar (b0 / 4), b64StdChar ((b0 % 4) * 16 + b1 / 16),
      b64StdChar ((b1 % 16) * 4), '=']
  | [b0] => [b64StdChar (b0 / 4), b64StdChar ((b0 % 4) * 16), '=', '=']
  | [] => []

/-- Strict model of `Buffer.from(string, 'base64url')`: every character must
belong to the base64url alphabet (no padding), and a trailing group of one
character is malformed.  (Node itself silently skips foreign characters; the
surrounding `try`/`catch`-plus-truthiness structure of `decodeRefreshCookie`
makes the difference unobservable for the cookie values reasoned about
below, where this model's failure stands for "the first decode attempt does
not produce a usable session".) -/
def base64UrlDecodeStrict : List Char → Option (List Nat)
  | [] => some []
  | [c0, c1] =>
    match b64UrlVal c0, b64UrlVal c1 with
    | some s0, some s1 => some [s0 * 4 + s1 / 16]
    | _, _ => none
  | [c0, c1, c2] =>
    match b64UrlVal c0, b64UrlVal c1, b64UrlVal c2 with
    | some s0, some s1, some s2 =>
      some [s0 * 4 + s1 / 16, (s1 % 16) * 16 + s2 / 4]
    | _, _, _ => none
  | c0 :: c1 :: c2 :: c3 :: rest =>
    match b64UrlVal c0, b64UrlVal c1, b64UrlVal c2, b64UrlVal c3,
        base64UrlDecodeStrict rest with
    | some s0, some s1, some s2, some s3, some bs =>
      some ((s0 * 4 + s1 / 16) :: (((s1 % 16) * 16 + s2 / 4) :: (((s2 % 4) * 64 + s3) :: bs)))
    | _, _, _, _, _ => none
  | _ => none

/-- Strict model of `Buffer.from(string, 'base64')`: standard alphabet with
mandatory padding (exactly the shape `base64StdEncode` produces). -/
def base64StdDecode : List Char → Option (List Nat)
  | [] => some []
  | [c0, c1, '=', '='] =>
    match b64StdVal c0, b64StdVal c1 with
    | some s0, some s1 => some [s0 * 4 + s1 / 16]
    | _, _ => none
  | [c0, c1, c2, '='] =>
    match b64StdVal c0, b64StdVal c1, b64StdVal c2 with
    | some s0, some s1, some s2 =>
      some [s0 * 4 + s1 / 16, (s1 % 16) * 16 + s2 / 4]
    | _, _, _ => none
  | c0 :: c1 :: c2 :: c3 :: rest =>
    match b64StdVal c0, b64StdVal c1, b64StdVal c2, b64StdVal c3,
        base64StdDecode rest with
    | some s0, some s1, some s2, some s3, some bs =>
      some ((s0 * 4 + s1 / 16) :: (((s1 % 16) * 16 + s2 / 4) :: (((s2 % 4) * 64 + s3) :: bs)))
    | _, _, _, _, _ => none
  | _ => none

theorem b64UrlVal_b64UrlChar : ∀ n < 64, b64UrlVal (b64UrlChar n) = some n := by
  decide

theorem b64StdVal_b64StdChar : ∀ n < 64, b64StdVal (b64StdChar n) = some n := by
  decide

theorem b64StdChar_ne_pad : ∀ n < 64, b64StdChar n ≠ '=' := by
  decide

theorem base64Url_roundtrip :
    ∀ bs, (∀ b ∈ bs, b < 256) →
      base64UrlDecodeStrict (base64UrlEncode bs) = some bs := by
  intro bs
  induction bs using base64UrlEncode.induct with
  | case1 b0 b1 b2 rest ih =>
    intro hb
    have h0 : b0 < 256 := hb b0 (by simp)
    have h1 : b1 < 256 := hb b1 (by simp)
    have h2 : b2 < 256 := hb b2 (by simp)
    rw [base64UrlEncode, base64UrlDecodeStrict]
    rw [b64UrlVal_b64UrlChar (b0 / 4) (by omega),
      b64UrlVal_b64UrlChar ((b0 % 4) * 16 + b1 / 16) (by omega),
      b64UrlVal_b64UrlChar ((b1 % 16) * 4 + b2 / 64) (by omega),
      b64UrlVal_b64UrlChar (b2 % 64) (by omega),
      ih (fun b hbm => hb b (by simp [hbm]))]
    have e0 : b0 / 4 * 4 + ((b0 % 4) * 16 + b1 / 16) / 16 = b0 := by omega
    have e1 : ((b0 % 4) * 16 + b1 / 16) % 16 * 16 + ((b1 % 16) * 4 + b2 / 64) / 4 = b1 := by
      omega
    have e2 : ((b1 % 16) * 4 + b2 / 64) % 4 * 64 + b2 % 64 = b2 := by omega
    simp [e0, e1, e2]
    all_goals first
      | omega
      | exact fun h => absurd h (b64StdChar_ne_pad _ (by omega))
      | exact fun h _ => absurd h (b64StdChar_ne_pad _ (by omega))
      | exact fun h _ _ => absurd h (b64StdChar_ne_pad _ (by omega))
  | case2 b0 b1 =>
    intro hb
    have h0 : b0 < 256 := hb b0 (by simp)
    have h1 : b1 < 256 := hb b1 (by simp)
    rw [base64UrlEncode, base64UrlDecodeStrict]
    rw [b64UrlVal_b64UrlChar (b0 / 4) (by omega),
      b64UrlVal_b64UrlChar ((b0 % 4) * 16 + b1 / 16) (by omega),
      b64UrlVal_b64UrlChar ((b1 % 16) * 4) (by omega)]
    have e0 : b0 / 4 * 4 + ((b0 % 4) * 16 + b1 / 16) / 16 = b0 := by omega
    have e1 : ((b0 % 4) * 16 + b1 / 16) % 16 * 16 + (b1 % 16) * 4 / 4 = b1 := by omega
    simp [e0, e1]
    all_goals first
      | omega
      | exact fun h => absurd h (b64StdChar_ne_pad _ (by omega))
      | exact fun h _ => absurd h (b64StdChar_ne_pad _ (by omega))
      | exact fun h _ _ => absurd h (b64StdChar_ne_pad _ (by omega))
  | case3 b0 =>
    intro hb
    have h0 : b0 < 256 := hb b0 (by simp)
    rw [base64UrlEncode, base64UrlDecodeStrict]
    rw [b64UrlVal_b64UrlChar (b0 / 4) (by omega),
      b64UrlVal_b64UrlChar ((b0 % 4) * 16) (by omega)]
    have e0 : b0 / 4 * 4 + (b0 % 4) * 16 / 16 = b0 := by omega
    simp [e0]
    all_goals first
      | omega
      | exact fun h => absurd h (b64StdChar_ne_pad _ (by omega))
      | exact fun h _ => absurd h (b64StdChar_ne_pad _ (by omega))
      | exact fun h _ _ => absurd h (b64StdChar_ne_pad _ (by omega))
  | case4 =>
    intro _
    rfl

theorem base64Std_roundtrip :
    ∀ bs, (∀ b ∈ bs, b < 256) →
      base64StdDecode (base64StdEncode bs) = some bs := by
  intro bs
  induction bs using base64StdEncode.induct with
  | case1 b0 b1 b2 rest ih =>
    intro hb
    have h0 : b0 < 256 := hb b0 (by simp)
    have h1 : b1 < 256 := hb b1 (by simp)
    have h2 : b2 < 256 := hb b2 (by simp)
    rw [base64StdEncode, base64StdDecode]
    rw [b64StdVal_b64StdChar (b0 / 4) (by omega),
      b64StdVal_b64StdChar ((b0 % 4) * 16 + b1 / 16) (by omega),
      b64StdVal_b64StdChar ((b1 % 16) * 4 + b2 / 64) (by omega),
      b64StdVal_b64StdChar (b2 % 64) (by omega),
      ih (fun b hbm => hb b (by simp [hbm]))]
    have e0 : b0 / 4 * 4 + ((b0 % 4) * 16 + b1 / 16) / 16 = b0 := by omega
    have e1 : ((b0 % 4) * 16 + b1 / 16) % 16 * 16 + ((b1 % 16) * 4 + b2 / 64) / 4 = b1 := by
      omega
    have e2 : ((b1 % 16) * 4 + b2 / 64) % 4 * 64 + b2 % 64 = b2 := by omega
    simp [e0, e1, e2]
    all_goals first
      | omega
      | exact fun h => absurd h (b64StdChar_ne_pad _ (by omega))
      | exact fun h _ => absurd h (b64StdChar_ne_pad _ (by omega))
      | exact fun h _ _ => absurd h (b64StdChar_ne_pad _ (by omega))
  | case2 b0 b1 =>
    intro hb
    have h0 : b0 < 256 := hb b0 (by simp)
    have h1 : b1 < 256 := hb b1 (by simp)
    rw [base64StdEncode, base64StdDecode]
    rw [b64StdVal_b64StdChar (b0 / 4) (by omega),
      b64StdVal_b64StdChar ((b0 % 4) * 16 + b1 / 16) (by omega),
      b64StdVal_b64StdChar ((b1 % 16) * 4) (by omega)]
    have e0 : b0 / 4 * 4 + ((b0 % 4) * 16 + b1 / 16) / 16 = b0 := by omega
    have e1 : ((b0 % 4) * 16 + b1 / 16) % 16 * 16 + (b1 % 16) * 4 / 4 = b1 := by omega
    simp [e0, e1]
    all_goals first
      | omega
      | exact fun h => absurd h (b64StdChar_ne_pad _ (by omega))
      | exact fun h _ => absurd h (b64StdChar_ne_pad _ (by omega))
      | exact fun h _ _ => absurd h (b64StdChar_ne_pad _ (by omega))
  | case3 b0 =>
    intro hb
    have h0 : b0 < 256 := hb b0 (by simp)
    rw [base64StdEncode, base64StdDecode]
    rw [b64StdVal_b64StdChar (b0 / 4) (by omega),
      b64StdVal_b64StdChar ((b0 % 4) * 16) (by omega)]
    have e0 : b0 / 4 * 4 + (b0 % 4) * 16 / 16 = b0 := by omega
    simp [e0]
    all_goals first
      | omega
      | exact fun h => absurd h (b64StdChar_ne_pad _ (by omega))
      | exact fun h _ => absurd h (b64StdChar_ne_pad _ (by omega))
      | exact fun h _ _ => absurd h (b64StdChar_ne_pad _ (by omega))
  | case4 =>
    intro _
    rfl

/-- Characters `encodeURIComponent` leaves unescaped: ASCII alphanumerics
and `- _ . ! ~ * ' ( )`. -/
def uriUnreserved (c : Char) : Bool :=
  (65 ≤ c.toNat && c.toNat ≤ 90) || (97 ≤ c.toNat && c.toNat ≤ 122) ||
    (48 ≤ c.toNat && c.toNat ≤ 57) || c = '-' || c = '_' || c = '.' || c = '!' ||
    c = '~' || c = '*' || c = Char.ofNat 39 || c = '(' || c = ')'

/-- Uppercase hexadecimal digit (percent-escapes use upper case). -/
def hexDigitUpper (n : Nat) : Char :=
  if n < 10 then Char.ofNat (48 + n) else Char.ofNat (55 + n)

/-- `%XX` escape of one byte. -/
def percentByte (b : Nat) : List Char :=
  ['%', hexDigitUpper (b / 16), hexDigitUpper (b % 16)]

/-- `%XX` escapes of a byte sequence. -/
def percentBytes : List Nat → List Char
  | [] => []
  | b :: t => percentByte b ++ percentBytes t

/-- `encodeURIComponent` on one character: kept verbatim when unreserved,
otherwise each byte of its UTF-8 encoding is percent-escaped. -/
def encodeURIComponentChar (c : Char) : List Char :=
  if uriUnreserved c then [c] else percentBytes (utf8EncodeChar c)

/-- Model of `encodeURIComponent`. -/
def encodeURIComponentChars : List Char → List Char
  | [] => []
  | c :: t => encodeURIComponentChar c ++ encodeURIComponentChars t

/-- Byte-collection pass of the `decodeURIComponent` model: a `%XX` escape
contributes the byte `XX`, a literal character contributes its UTF-8 bytes. -/
def uriDecodeBytes : List Char → Option (List Nat)
  | [] => some []
  | c :: rest =>
    if c = '%' then
      match rest with
      | h1 :: h2 :: rest2 =>
        match hexVal h1, hexVal h2 with
        | some a, some b => (uriDecodeBytes rest2).map (fun l => (a * 16 + b) :: l)
        | _, _ => none
      | _ => none
    else (uriDecodeBytes rest).map (fun l => utf8EncodeChar c ++ l)

/-- Model of `decodeURIComponent`: collect bytes, then UTF-8-decode them; a
`none` plays the role of the `URIError` the source catches. -/
def decodeURIComponentStrict (l : List Char) : Option (List Char) :=
  (uriDecodeBytes l).bind utf8DecodeChars

theorem hexVal_hexDigitUpper {n : Nat} (h : n < 16) :
    hexVal (hexDigitUpper n) = some n := by
  interval_cases n <;> decide

theorem uriDecodeBytes_percent (bs : List Nat) (rest : List Char)
    (hb : ∀ b ∈ bs, b < 256) :
    uriDecodeBytes (percentBytes bs ++ rest) =
      (uriDecodeBytes rest).map (fun l => bs ++ l) := by
  induction bs with
  | nil =>
    rw [percentBytes, List.nil_append]
    cases uriDecodeBytes rest <;> simp
  | cons b t ih =>
    have hblt : b < 256 := hb b (by simp)
    rw [percentBytes, percentByte]
    simp only [List.cons_append, List.append_assoc, List.nil_append]
    rw [uriDecodeBytes]
    rw [if_pos rfl]
    rw [hexVal_hexDigitUpper (show b / 16 < 16 by omega),
      hexVal_hexDigitUpper (show b % 16 < 16 by omega)]
    rw [ih (fun x hx => hb x (by simp [hx]))]
    have e : b / 16 * 16 + b % 16 = b := by omega
    cases uriDecodeBytes rest <;> simp [e]

theorem percent_not_unreserved : uriUnreserved '%' = false := by decide

theorem uriDecodeBytes_encode (s : List Char) :
    uriDecodeBytes (encodeURIComponentChars s) = some (utf8EncodeChars s) := by
  induction s with
  | nil => rfl
  | cons c t ih =>
    rw [encodeURIComponentChars, encodeURIComponentChar]
    by_cases hu : uriUnreserved c
    · rw [if_pos hu, List.singleton_append]
      have hc : ¬c = '%' := by
        intro h
        rw [h] at hu
        exact absurd hu (by decide)
      rw [uriDecodeBytes.eq_def]
      simp only [hc, if_false]
      rw [ih]
      simp [utf8EncodeChars]
    · rw [if_neg hu, uriDecodeBytes_percent _ _ (utf8EncodeChar_lt256 c), ih]
      simp [utf8EncodeChars]

theorem decodeURIComponent_encode (s : List Char) :
    decodeURIComponentStrict (encodeURIComponentChars s) = some s := by
  rw [decodeURIComponentStrict, uriDecodeBytes_encode]
  simp [utf8_roundtrip]

theorem percent_mem_encode (s : List Char) (c : Char) (hc : c ∈ s)
    (hu : uriUnreserved c = false) : '%' ∈ encodeURIComponentChars s := by
  induction s with
  | nil => simp at hc
  | cons d t ih =>
    rw [encodeURIComponentChars]
    rcases List.mem_cons.mp hc with h | h
    · subst h
      rw [encodeURIComponentChar, if_neg (by simp [hu])]
      have hne : utf8EncodeChar c ≠ [] := by
        rw [utf8EncodeChar]
        split <;> try split
        all_goals simp
        split <;> simp
      rcases hb : utf8EncodeChar c with _ | ⟨b, bs⟩
      · exact absurd hb hne
      · rw [percentBytes, percentByte]
        simp
    · exact List.mem_append.mpr (Or.inr (ih h))

theorem b64UrlVal_percent : b64UrlVal '%' = none := by decide

theorem base64UrlDecodeStrict_percent :
    ∀ cs, '%' ∈ cs → base64UrlDecodeStrict cs = none := by
  intro cs
  induction cs using base64UrlDecodeStrict.induct with
  | case1 => intro hc; simp at hc
  | case2 c0 c1 s0 s1 hv1 hv0 =>
    intro hc
    exfalso
    have hmem : '%' = c0 ∨ '%' = c1 := by simpa using hc
    rcases hmem with h | h
    · rw [← h, b64UrlVal_percent] at hv0; exact Option.noConfusion hv0
    · rw [← h, b64UrlVal_percent] at hv1; exact Option.noConfusion hv1
  | case3 c0 c1 hfail =>
    intro _
    rw [base64UrlDecodeStrict]
    split
    · rename_i s0 s1 h0 h1
      exact (hfail s0 s1 h0 h1).elim
    · rfl
  | case4 c0 c1 c2 s0 s1 s2 hv2 hv1 hv0 =>
    intro hc
    exfalso
    have hmem : '%' = c0 ∨ '%' = c1 ∨ '%' = c2 := by simpa using hc
    rcases hmem with h | h | h
    · rw [← h, b64UrlVal_percent] at hv0; exact Option.noConfusion hv0
    · rw [← h, b64UrlVal_percent] at hv1; exact Option.noConfusion hv1
    · rw [← h, b64UrlVal_percent] at hv2; exact Option.noConfusion hv2
  | case5 c0 c1 c2 hfail =>
    intro _
    rw [base64UrlDecodeStrict]
    split
    · rename_i s0 s1 s2 h0 h1 h2
      exact (hfail s0 s1 s2 h0 h1 h2).elim
    · rfl
  | case6 c0 c1 c2 c3 rest s0 s1 s2 s3 bs hrest hv3 hv2 hv1 hv0 ih =>
    intro hc
    exfalso
    have hmem : '%' = c0 ∨ '%' = c1 ∨ '%' = c2 ∨ '%' = c3 ∨ '%' ∈ rest := by
      simpa using hc
    rcases hmem with h | h | h | h | h
    · rw [← h, b64UrlVal_percent] at hv0; exact Option.noConfusion hv0
    · rw [← h, b64UrlVal_percent] at hv1; exact Option.noConfusion hv1
    · rw [← h, b64UrlVal_percent] at hv2; exact Option.noConfusion hv2
    · rw [← h, b64UrlVal_percent] at hv3; exact Option.noConfusion hv3
    · rw [ih h] at hrest; exact Option.noConfusion hrest
  | case7 c0 c1 c2 c3 rest hfail ih =>
    intro _
    rw [base64UrlDecodeStrict]
    split
    · rename_i s0 s1 s2 s3 bs h0 h1 h2 h3 h4
      exact (hfail s0 s1 s2 s3 bs h0 h1 h2 h3 h4).elim
    · rfl
  | case8 t ha hb2 hc2 hd =>
    intro _
    cases t with
    | nil => exact (ha rfl).elim
    | cons a t1 =>
      cases t1 with
      | nil => rfl
      | cons b t2 =>
        cases t2 with
        | nil => exact (hb2 a b rfl).elim
        | cons c t3 =>
          cases t3 with
          | nil => exact (hc2 a b c rfl).elim
          | cons d t4 => exact (hd a b c d t4 rfl).elim

theorem base64StdEncode_pad_mem :
    ∀ bs : List Nat, bs.length % 3 ≠ 0 → '=' ∈ base64StdEncode bs := by
  intro bs
  induction bs using base64StdEncode.induct with
  | case1 b0 b1 b2 rest ih =>
    intro hl
    rw [base64StdEncode]
    have : rest.length % 3 ≠ 0 := by
      simp only [List.length_cons] at hl
      omega
    simp [ih this]
  | case2 b0 b1 => intro _; simp [base64StdEncode]
  | case3 b0 => intro _; simp [base64StdEncode]
  | case4 => intro hl; simp at hl

theorem b64Char_agree : ∀ n < 64, b64StdChar n ≠ '+' → b64StdChar n ≠ '/' →
    b64StdChar n = b64UrlChar n := by
  decide

theorem base64StdEncode_eq_url (bs : List Nat) (hb : ∀ b ∈ bs, b < 256)
    (hplus : '+' ∉ base64StdEncode bs) (hslash : '/' ∉ base64StdEncode bs)
    (hpad : '=' ∉ base64StdEncode bs) :
    base64StdEncode bs = base64UrlEncode bs := by
  induction bs using base64StdEncode.induct with
  | case1 b0 b1 b2 rest ih =>
    have h0 : b0 < 256 := hb b0 (by simp)
    have h1 : b1 < 256 := hb b1 (by simp)
    have h2 : b2 < 256 := hb b2 (by simp)
    rw [base64StdEncode] at hplus hslash hpad
    simp only [List.mem_cons, not_or] at hplus hslash hpad
    rw [base64StdEncode, base64UrlEncode]
    rw [b64Char_agree (b0 / 4) (by omega) (fun h => hplus.1 h.symm)
        (fun h => hslash.1 h.symm),
      b64Char_agree ((b0 % 4) * 16 + b1 / 16) (by omega)
        (fun h => hplus.2.1 h.symm) (fun h => hslash.2.1 h.symm),
      b64Char_agree ((b1 % 16) * 4 + b2 / 64) (by omega)
        (fun h => hplus.2.2.1 h.symm) (fun h => hslash.2.2.1 h.symm),
      b64Char_agree (b2 % 64) (by omega)
        (fun h => hplus.2.2.2.1 h.symm) (fun h => hslash.2.2.2.1 h.symm)]
    rw [ih (fun b hbm => hb b (by simp [hbm])) (fun h => hplus.2.2.2.2 h)
      (fun h => hslash.2.2.2.2 h) (fun h => hpad.2.2.2.2 h)]
  | case2 b0 b1 =>
    exfalso
    apply hpad
    rw [base64StdEncode]
    simp
  | case3 b0 =>
    exfalso
    apply hpad
    rw [base64StdEncode]
    simp
  | case4 => rfl

theorem b64StdChar_unreserved : ∀ n < 64, b64StdChar n ≠ '+' →
    b64StdChar n ≠ '/' → uriUnreserved (b64StdChar n) = true := by
  decide

theorem base64StdEncode_chars (bs : List Nat) (hb : ∀ b ∈ bs, b < 256) :
    ∀ c ∈ base64StdEncode bs, (∃ n, n < 64 ∧ c = b64StdChar n) ∨ c = '=' := by
  induction bs using base64StdEncode.induct with
  | case1 b0 b1 b2 rest ih =>
    intro c hc
    have h0 : b0 < 256 := hb b0 (by simp)
    have h1 : b1 < 256 := hb b1 (by simp)
    have h2 : b2 < 256 := hb b2 (by simp)
    rw [base64StdEncode] at hc
    simp only [List.mem_cons] at hc
    rcases hc with h | h | h | h | h
    · exact Or.inl ⟨b0 / 4, by omega, h⟩
    · exact Or.inl ⟨(b0 % 4) * 16 + b1 / 16, by omega, h⟩
    · exact Or.inl ⟨(b1 % 16) * 4 + b2 / 64, by omega, h⟩
    · exact Or.inl ⟨b2 % 64, by omega, h⟩
    · exact ih (fun b hbm => hb b (by simp [hbm])) c h
  | case2 b0 b1 =>
    intro c hc
    have h0 : b0 < 256 := hb b0 (by simp)
    have h1 : b1 < 256 := hb b1 (by simp)
    rw [base64StdEncode] at hc
    simp only [List.mem_cons, List.not_mem_nil, or_false] at hc
    rcases hc with h | h | h | h
    · exact Or.inl ⟨b0 / 4, by omega, h⟩
    · exact Or.inl ⟨(b0 % 4) * 16 + b1 / 16, by omega, h⟩
    · exact Or.inl ⟨(b1 % 16) * 4, by omega, h⟩
    · exact Or.inr h
  | case3 b0 =>
    intro c hc
    have h0 : b0 < 256 := hb b0 (by simp)
    rw [base64StdEncode] at hc
    simp only [List.mem_cons, List.not_mem_nil, or_false] at hc
    rcases hc with h | h | h | h
    · exact Or.inl ⟨b0 / 4, by omega, h⟩
    · exact Or.inl ⟨(b0 % 4) * 16, by omega, h⟩
    · exact Or.inr h
    · exact Or.inr h
  | case4 => intro c hc; simp [base64StdEncode] at hc

theorem encodeURIComponent_identity (s : List Char)
    (h : ∀ c ∈ s, uriUnreserved c = true) : encodeURIComponentChars s = s := by
  induction s with
  | nil => rfl
  | cons c t ih =>
    rw [encodeURIComponentChars, encodeURIComponentChar,
      if_pos (h c (by simp)), List.singleton_append,
      ih (fun d hd => h d (by simp [hd]))]

/-- `encodeRefreshCookie` (current scheme, `sso-auth.ts`):
`Buffer.from(JSON.stringify(value), 'utf8').toString('base64url')`. -/
def encodeRefreshCookie (value : RefreshCookie) : String :=
  String.mk (base64UrlEncode (utf8EncodeChars (refreshCookieJsonChars value)))

/-- Legacy `encodeRefreshCookie` (the superseded auth module kept next to
`hit-metrics.ts`):
`encodeURIComponent(Buffer.from(JSON.stringify(value), 'utf8').toString('base64'))`. -/
def encodeRefreshCookieLegacy (value : RefreshCookie) : String :=
  String.mk (encodeURIComponentChars
    (base64StdEncode (utf8EncodeChars (refreshCookieJsonChars value))))

/-- First `try` block of `decodeRefreshCookie`: current scheme
(`base64url(JSON)`); any failure — or a falsy `refresh_token` — falls
through to the legacy branch. -/
def decodeRefreshCookieModernBranch (raw : String) : Option RefreshCookie :=
  match base64UrlDecodeStrict raw.data with
  | none => none
  | some bytes =>
    match utf8DecodeChars bytes with
    | none => none
    | some json =>
      match safeJsonParseRefreshCookie json with
      | none => none
      | some d => if d.refresh_token = "" then none else some d

/-- Second `try` block of `decodeRefreshCookie`: legacy scheme
(`encodeURIComponent(base64(JSON))`). -/
def decodeRefreshCookieLegacyBranch (raw : String) : Option RefreshCookie :=
  match decodeURIComponentStrict raw.data with
  | none => none
  | some b64 =>
    match base64StdDecode b64 with
    | none => none
    | some bytes =>
      match utf8DecodeChars bytes with
      | none => none
      | some json =>
        match safeJsonParseRefreshCookie json with
        | none => none
        | some d => if d.refresh_token = "" then none else some d

/-- `decodeRefreshCookie` (`sso-auth.ts`): current scheme first, then the
legacy scheme. -/
def decodeRefreshCookie (raw : String) : Option RefreshCookie :=
  match decodeRefreshCookieModernBranch raw with
  | some d => some d
  | none => decodeRefreshCookieLegacyBranch raw

theorem decodeModernBranch_encode (v : RefreshCookie) (hv : v.refresh_token ≠ "") :
    decodeRefreshCookieModernBranch (encodeRefreshCookie v) = some v := by
  rw [decodeRefreshCookieModernBranch, encodeRefreshCookie]
  simp [base64Url_roundtrip _ (utf8EncodeChars_lt256 _), utf8_roundtrip,
    safeJsonParse_refreshCookie, hv]

theorem decode_encodeRefreshCookie (v : RefreshCookie) (hv : v.refresh_token ≠ "") :
    decodeRefreshCookie (encodeRefreshCookie v) = some v := by
  rw [decodeRefreshCookie, decodeModernBranch_encode v hv]

theorem decodeLegacyBranch_encodeLegacy (v : RefreshCookie)
    (hv : v.refresh_token ≠ "") :
    decodeRefreshCookieLegacyBranch (encodeRefreshCookieLegacy v) = some v := by
  rw [decodeRefreshCookieLegacyBranch, encodeRefreshCookieLegacy]
  simp [decodeURIComponent_encode, base64Std_roundtrip _ (utf8EncodeChars_lt256 _),
    utf8_roundtrip, safeJsonParse_refreshCookie, hv]

theorem decode_encodeRefreshCookieLegacy (v : RefreshCookie)
    (hv : v.refresh_token ≠ "") :
    decodeRefreshCookie (encodeRefreshCookieLegacy v) = some v := by
  rw [decodeRefreshCookie]
  by_cases hmem : '+' ∈ base64StdEncode (utf8EncodeChars (refreshCookieJsonChars v)) ∨
      '/' ∈ base64StdEncode (utf8EncodeChars (refreshCookieJsonChars v)) ∨
      '=' ∈ base64StdEncode (utf8EncodeChars (refreshCookieJsonChars v))
  · have hpc : '%' ∈ encodeURIComponentChars
        (base64StdEncode (utf8EncodeChars (refreshCookieJsonChars v))) := by
      rcases hmem with h | h | h
      · exact percent_mem_encode _ _ h (by decide)
      · exact percent_mem_encode _ _ h (by decide)
      · exact percent_mem_encode _ _ h (by decide)
    have hmod : decodeRefreshCookieModernBranch (encodeRefreshCookieLegacy v) = none := by
      rw [decodeRefreshCookieModernBranch, encodeRefreshCookieLegacy]
      rw [base64UrlDecodeStrict_percent _ hpc]
    rw [hmod, decodeLegacyBranch_encodeLegacy v hv]
  · push_neg at hmem
    obtain ⟨hp, hs, he⟩ := hmem
    have hagree : base64StdEncode (utf8EncodeChars (refreshCookieJsonChars v)) =
        base64UrlEncode (utf8EncodeChars (refreshCookieJsonChars v)) :=
      base64StdEncode_eq_url _ (utf8EncodeChars_lt256 _) hp hs he
    have hunres : ∀ c ∈ base64StdEncode (utf8EncodeChars (refreshCookieJsonChars v)),
        uriUnreserved c = true := by
      intro c hc
      rcases base64StdEncode_chars _ (utf8EncodeChars_lt256 _) c hc with ⟨n, hn, rfl⟩ | rfl
      · exact b64StdChar_unreserved n hn (fun hq => hp (hq ▸ hc)) (fun hq => hs (hq ▸ hc))
      · exact absurd hc he
    have hid : encodeURIComponentChars
        (base64StdEncode (utf8EncodeChars (refreshCookieJsonChars v))) =
        base64StdEncode (utf8EncodeChars (refreshCookieJsonChars v)) :=
      encodeURIComponent_identity _ hunres
    have hmod : decodeRefreshCookieModernBranch (encodeRefreshCookieLegacy v) = some v := by
      rw [decodeRefreshCookieModernBranch, encodeRefreshCookieLegacy]
      rw [show (String.mk (encodeURIComponentChars
        (base64StdEncode (utf8EncodeChars (refreshCookieJsonChars v))))).data
        = encodeURIComponentChars (base64StdEncode (utf8EncodeChars (refreshCookieJsonChars v)))
        from rfl]
      rw [hid, hagree]
      simp [base64Url_roundtrip _ (utf8EncodeChars_lt256 _), utf8_roundtrip,
        safeJsonParse_refreshCookie, hv]
    rw [hmod]

/-- `token.split('.')` — JavaScript split with a single-character separator
keeps empty segments. -/
def jsSplitDotAux (acc : List Char) : List Char → List (List Char)
  | [] => [acc.reverse]
  | c :: t =>
    if c = '.' then acc.reverse :: jsSplitDotAux [] t else jsSplitDotAux (c :: acc) t

/-- `token.split('.')` on a string. -/
def jsSplitDot (s : String) : List (List Char) := jsSplitDotAux [] s.data

/-- `base64UrlDecode` helper of `sso-auth.ts`: normalise `-`/`_` to the
standard alphabet, add `'='` padding, then
`Buffer.from(padded, 'base64').toString('utf8')` (both modelled strictly). -/
def jwtBase64UrlDecode (l : List Char) : Option (List Char) :=
  let normalized := l.map (fun c => if c = '-' then '+' else if c = '_' then '/' else c)
  let padded := normalized ++ List.replicate ((4 - normalized.length % 4) % 4) '='
  (base64StdDecode padded).bind utf8DecodeChars

/-- `decodeJwtPayload`: split on `'.'`, require at least two segments, decode
segment 1 and `JSON.parse` it; `null` on any failure.  The result is the raw
parsed JSON value — the TypeScript `as Record<string, unknown>` cast does not
check that it actually is an object. -/
def decodeJwtPayload (token : String) : Option Json :=
  match jsSplitDot token with
  | _ :: seg :: _ =>
    match jwtBase64UrlDecode seg with
    | none => none
    | some json => jsonParseChars json
  | _ => none

/-- JavaScript property read `value[k]` on a decoded JSON value: objects look
the key up, every other value yields `undefined` (`none`).  (Callers
null-check the value first, so the throwing cases of property access on
`null`/`undefined` cannot occur here.) -/
def jsGetField (v : Json) (k : String) : Option Json :=
  match v with
  | Json.obj fields => jsLookup fields k
  | _ => none

/-- Property read coerced by the source's `typeof x === 'string'` checks. -/
def jsGetString (v : Json) (k : String) : Option String :=
  match jsGetField v k with
  | some (Json.str s) => some s
  | _ => none

/-- The fixed whitelist of `inspectJwt`. -/
def inspectKeepKeys : List String :=
  ["iss", "aud", "azp", "exp", "sub", "preferred_username", "typ", "scope"]

/-- `inspectJwt` (`sso-auth.ts` lines 133–143).  The `k in payload` loop uses
the JavaScript `in` operator, which throws a `TypeError` when its right
operand is not an object — which happens exactly when the payload segment
parses to a truthy JSON primitive (a nonzero number, a non-empty string, or
`true`).  That throw is modelled by the `Except.error` branch. -/
def inspectJwt (token : String) : Except String (Option (List (String × Json))) :=
  match decodeJwtPayload token with
  | none => Except.ok none
  | some payload =>
    if jsFalsy payload then Except.ok none
    else match payload with
      | Json.obj fields =>
        Except.ok (some (inspectKeepKeys.filterMap
          (fun k => (jsLookup fields k).map (fun v => (k, v)))))
      | Json.arr _ => Except.ok (some [])
      | _ => Except.error "TypeError: cannot use in operator on a primitive payload"

/-- `getJwtExpiresAt`: the declared `exp` claim in milliseconds, `null` when
the token is falsy, undecodable, or carries no numeric `exp`. -/
def getJwtExpiresAt (token : Option String) : Option Int :=
  match token with
  | none => none
  | some t =>
    if t = "" then none
    else match decodeJwtPayload t with
      | none => none
      | some payload =>
        if jsFalsy payload then none
        else match jsGetField payload "exp" with
          | some (Json.num n) => some (n * 1000)
          | _ => none

/-- `tokenHasAudience`: the decoded `aud` claim equals `expected` (string
form) or contains it (array form). -/
def tokenHasAudience (token : Option String) (expected : String) : Bool :=
  match token with
  | none => false
  | some t =>
    if t = "" then false
    else match decodeJwtPayload t with
      | none => false
      | some payload =>
        if jsFalsy payload then false
        else match jsGetField payload "aud" with
          | some (Json.str s) => s == expected
          | some (Json.arr l) =>
            l.any (fun j => match j with | Json.str s => s == expected | _ => false)
          | _ => false

/-- The token fields of the identity-provider response the audited code
reads (`interface JwtLike`; fields the code never touches are omitted). -/
structure JwtLike where
  access_token : String
  refresh_token : Option String
  expires_in : Option Int
  refresh_expires_in : Option Int
  id_token : Option String
deriving DecidableEq

/-- `interface UserCredentials`. -/
structure UserCredentials where
  id : String
  username : String
  email : Option String
  first_name : Option String
  last_name : Option String
  jwt : JwtLike
  issued_at : Int
deriving DecidableEq

/-- `userFromAccessToken`: reconstruct a `UserCredentials` from the unverified
claims of a cached access token (`Date.now()` passed as `now`). -/
def userFromAccessToken (accessToken : String) (now : Int) : Option UserCredentials :=
  match decodeJwtPayload accessToken with
  | none => none
  | some payload =>
    if jsFalsy payload then none
    else
      let id := (jsGetString payload "sub").getD ""
      let username := ((jsGetString payload "preferred_username").orElse
        (fun _ => jsGetString payload "username")).getD ""
      if id = "" ∨ username = "" then none
      else some
        { id := id, username := username,
          email := jsGetString payload "email",
          first_name := (jsGetString payload "given_name").orElse
            (fun _ => jsGetString payload "first_name"),
          last_name := (jsGetString payload "family_name").orElse
            (fun _ => jsGetString payload "last_name"),
          jwt := { access_token := accessToken, refresh_token := none,
                   expires_in := none, refresh_expires_in := none, id_token := none },
          issued_at := now }

/-- `verifyKeycloakAccessToken` (keycloak module), after `jwtVerify` has
already checked signature, `exp` and `nbf` and produced `payload`: accept iff
the `aud` claim equals the expected client id (string), contains it (array),
or the `azp` claim equals it; otherwise throw the audience error. -/
def verifyKeycloakAccessToken (expectedClientId : String)
    (payload : List (String × Json)) : Except String (List (String × Json)) :=
  let aud := jsLookup payload "aud"
  let azp := match jsLookup payload "azp" with
    | some (Json.str s) => some s
    | _ => none
  let audOk := match aud with
    | some (Json.str s) => s == expectedClientId
    | some (Json.arr l) =>
      l.any (fun j => match j with | Json.str s => s == expectedClientId | _ => false)
    | _ => false
  let azpOk := azp == some expectedClientId
  if !audOk && !azpOk then
    Except.error ("Keycloak token is not issued for client \"" ++ expectedClientId ++ "\"")
  else Except.ok payload

/-- `ApiError` (`src/lib/api/error`): message, HTTP status, response body. -/
structure ApiError where
  message : String
  status : Nat
  bodyText : String
deriving DecidableEq

/-- `type AccessCacheEntry` of `sso-auth.ts`. -/
structure AccessCacheEntry where
  access_token : String
  expires_at : Option Int
  last_used_at : Int
deriving DecidableEq

/-- The module-level `Map<string, AccessCacheEntry>`, in insertion order;
a JavaScript `Map` never holds duplicate keys. -/
abbrev AccessCache := List (String × AccessCacheEntry)

/-- `ACCESS_REFRESH_SKEW_MS = 20_000`. -/
def ACCESS_REFRESH_SKEW_MS : Int := 20000

/-- `ACCESS_CACHE_MAX = 5000`. -/
def ACCESS_CACHE_MAX : Nat := 5000

/-- `accessCache.get(k)`. -/
def cacheGet (cache : AccessCache) (k : String) : Option AccessCacheEntry :=
  (cache.find? (fun p => p.1 == k)).map (fun p => p.2)

/-- `accessCache.set(k, v)`: overwrite in place, or append in insertion
order. -/
def cacheSet (cache : AccessCache) (k : String) (v : AccessCacheEntry) : AccessCache :=
  if cache.any (fun p => p.1 == k) then
    cache.map (fun p => if p.1 == k then (k, v) else p)
  else cache ++ [(k, v)]

/-- The in-place `cached.last_used_at = now` mutation. -/
def cacheTouch (cache : AccessCache) (k : String) (now : Int) : AccessCache :=
  cache.map (fun p => if p.1 == k then (p.1, { p.2 with last_used_at := now }) else p)

/-- `accessCache.delete(k)` (keys are unique in a `Map`). -/
def cacheDelete (cache : AccessCache) (k : String) : AccessCache :=
  cache.filter (fun p => !(p.1 == k))

/-- `isAccessExpiringSoon`.  JavaScript truthiness is modelled exactly: a
missing entry, an empty `access_token`, a missing `expires_at` **and** the
falsy timestamp `0` all count as expiring. -/
def isAccessExpiringSoon (entry : Option AccessCacheEntry) (nowMs : Int) : Bool :=
  match entry with
  | none => true
  | some e =>
    if e.access_token = "" then true
    else match e.expires_at with
      | none => true
      | some t => if t = 0 then true else decide (t - nowMs ≤ ACCESS_REFRESH_SKEW_MS)

/-- Sort key of the eviction pass (`a[1].last_used_at - b[1].last_used_at`). -/
def cacheLe (a b : String × AccessCacheEntry) : Prop :=
  a.2.last_used_at ≤ b.2.last_used_at

instance : DecidableRel cacheLe := fun a b => Int.decLe _ _

/-- `trimAccessCacheIfNeeded`: when the map exceeds `ACCESS_CACHE_MAX`
entries, sort a snapshot by `last_used_at` and delete the least-recently-used
`Math.floor(5000 * 0.1) = 500` keys (at least one) in one pass.  The
insertion sort is a stable comparison sort, matching `Array.prototype.sort`
(ties are broken arbitrarily in either reading of the spec). -/
def trimAccessCacheIfNeeded (cache : AccessCache) : AccessCache :=
  if cache.length ≤ ACCESS_CACHE_MAX then cache
  else
    (((cache.insertionSort cacheLe).take (max 1 (ACCESS_CACHE_MAX / 10))).foldl
      (fun c e => cacheDelete c e.1) cache)

/-- `userRefreshWithToken`, applied to the already-parsed upstream response:
stamp `issued_at` and strip the refresh token from the returned JWT. -/
def userRefreshWithToken (response : UserCredentials) (now : Int) : UserCredentials :=
  { response with
    issued_at := now
    jwt := { response.jwt with refresh_token := none } }

/-- Result of `getAccessTokenForRefresh`: the token (or the thrown
`ApiError`), the cache state afterwards, and whether the upstream
`/user/refresh` call was made. -/
structure TokenFetch where
  token : Except ApiError String
  cache : AccessCache
  upstreamCalled : Bool

/-- The refresh branch of `getAccessTokenForRefresh`: call upstream, derive
`expires_at` from the fresh token's declared expiry, insert with
`last_used_at = now`, then trim.  (The `storeRefresh` cookie rewrite that
follows in the source writes the response cookie and does not touch the
cache; it is not part of the properties stated below.) -/
def refreshAndCache (cache : AccessCache) (refreshToken : String) (now : Int)
    (refreshResponse : Except ApiError UserCredentials) : TokenFetch :=
  match refreshResponse with
  | Except.error e => { token := Except.error e, cache := cache, upstreamCalled := true }
  | Except.ok resp =>
    let refreshed := userRefreshWithToken resp now
    { token := Except.ok refreshed.jwt.access_token,
      cache := trimAccessCacheIfNeeded (cacheSet cache refreshToken
        { access_token := refreshed.jwt.access_token,
          expires_at := getJwtExpiresAt (some refreshed.jwt.access_token),
          last_used_at := now }),
      upstreamCalled := true }

/-- `getAccessTokenForRefresh` (`sso-auth.ts` lines 208–229). -/
def getAccessTokenForRefresh (cache : AccessCache) (refreshToken : String)
    (now : Int) (refreshResponse : Except ApiError UserCredentials) : TokenFetch :=
  match cacheGet cache refreshToken with
  | some cached =>
    if isAccessExpiringSoon (some cached) now then
      refreshAndCache cache refreshToken now refreshResponse
    else
      { token := Except.ok cached.access_token,
        cache := cacheTouch cache refreshToken now, upstreamCalled := false }
  | none => refreshAndCache cache refreshToken now refreshResponse

/-- `bearerForApi` (current `sso-auth.ts`): always the access token. -/
def bearerForApi (creds : UserCredentials) : String :=
  "Bearer " ++ creds.jwt.access_token

/-- The probing loop of the legacy `bearerForApi`: for each acceptable
audience, the access token first, then the ID token (a matching but absent
ID token cannot occur — `tokenHasAudience` is false on `undefined`). -/
def bearerProbe (creds : UserCredentials) : List String → String
  | [] => "Bearer " ++ creds.jwt.access_token
  | aud :: rest =>
    if tokenHasAudience (some creds.jwt.access_token) aud then
      "Bearer " ++ creds.jwt.access_token
    else if tokenHasAudience creds.jwt.id_token aud then
      "Bearer " ++ creds.jwt.id_token.getD "undefined"
    else bearerProbe creds rest

/-- The audience list of the legacy `bearerForApi`. -/
def legacyExpectedAudiences : List String := ["psysloptv", "api.slopindustries.com"]

/-- `bearerForApi` as it exists in the legacy auth module preserved in
`hit-metrics.ts`: probe access token then ID token against each acceptable
audience, falling back to the access token. -/
def bearerForApiLegacy (creds : UserCredentials) : String :=
  bearerProbe creds legacyExpectedAudiences

/-- The credential surface of one inbound request: the `Authorization`
header and the `promptslop_refresh` cookie value (`undefined` when absent;
`cookies.get` may also yield an empty string, which is falsy). -/
structure AuthRequest where
  authorizationHeader : Option String
  refreshCookie : Option String

/-- JavaScript `\s` character class (the white-space and line-terminator
code points regular expressions match). -/
def isJsWhitespace (c : Char) : Bool :=
  c.toNat = 32 || c.toNat = 9 || c.toNat = 10 || c.toNat = 11 || c.toNat = 12 ||
    c.toNat = 13 || c.toNat = 160 || c.toNat = 5760 ||
    (8192 ≤ c.toNat && c.toNat ≤ 8202) || c.toNat = 8232 || c.toNat = 8233 ||
    c.toNat = 8239 || c.toNat = 8287 || c.toNat = 12288 || c.toNat = 65279

/-- Line terminators, which `.` does not match. -/
def isLineTerminator (c : Char) : Bool :=
  c.toNat = 10 || c.toNat = 13 || c.toNat = 8232 || c.toNat = 8233

/-- Case-insensitive single-character test. -/
def charCI (c lower upper : Char) : Bool := c = lower || c = upper

/-- `/^Bearer\s+.+/i.test(s)`: after a case-insensitive `Bearer`, at least
one `\s` character, and — somewhere after a (backtrackable) run of `\s` —
one character matched by `.`.  Since every line terminator is itself `\s`,
this is equivalent to: the first character after `Bearer` is `\s` and some
later character is not a line terminator. -/
def matchesBearerPattern (s : String) : Bool :=
  match s.data with
  | c1 :: c2 :: c3 :: c4 :: c5 :: c6 :: rest =>
    charCI c1 'b' 'B' && charCI c2 'e' 'E' && charCI c3 'a' 'A' &&
      charCI c4 'r' 'R' && charCI c5 'e' 'E' && charCI c6 'r' 'R' &&
      (match rest with
       | w :: t => isJsWhitespace w && t.any (fun c => !isLineTerminator c)
       | [] => false)
  | _ => false

/-- `String.prototype.trim`. -/
def jsTrim (l : List Char) : List Char :=
  ((l.dropWhile isJsWhitespace).reverse.dropWhile isJsWhitespace).reverse

/-- `b.replace(/^Bearer\s+/i, '').trim()`: drop the case-insensitive
`Bearer` prefix and the greedy whitespace run when present, then trim. -/
def stripBearerToken (s : String) : String :=
  match s.data with
  | c1 :: c2 :: c3 :: c4 :: c5 :: c6 :: rest =>
    if charCI c1 'b' 'B' && charCI c2 'e' 'E' && charCI c3 'a' 'A' &&
        charCI c4 'r' 'R' && charCI c5 'e' 'E' && charCI c6 'r' 'R' &&
        (match rest with | w :: _ => isJsWhitespace w | [] => false) then
      String.mk (jsTrim (rest.dropWhile isJsWhitespace))
    else String.mk (jsTrim s.data)
  | _ => String.mk (jsTrim s.data)

/-- `getStoredRefresh`: read the cookie (absent or empty is no session) and
decode it. -/
def getStoredRefresh (req : AuthRequest) : Option RefreshCookie :=
  match req.refreshCookie with
  | none => none
  | some raw => if raw = "" then none else decodeRefreshCookie raw

/-- The guard `storedRefresh.refresh_expires_at && Date.now() >
storedRefresh.refresh_expires_at`: JavaScript truthiness makes the timestamp
`0` (and `null`) skip the check entirely, and the comparison is strict. -/
def refreshExpired (stored : RefreshCookie) (now : Int) : Bool :=
  match stored.refresh_expires_at with
  | some t => if t = 0 then false else decide (now > t)
  | none => false

/-- Result of `getBearerFromEvent`. -/
structure BearerFetch where
  token : Except ApiError (Option String)
  cache : AccessCache
  upstreamCalled : Bool

/-- Packaging of the token fetch as `getBearerFromEvent` returns it
(`return \`Bearer ...\``; a thrown `ApiError` propagates). -/
def bearerFromFetch (fetched : TokenFetch) : BearerFetch :=
  match fetched.token with
  | Except.error e =>
    { token := Except.error e, cache := fetched.cache,
      upstreamCalled := fetched.upstreamCalled }
  | Except.ok tok =>
    { token := Except.ok (some ("Bearer " ++ tok)), cache := fetched.cache,
      upstreamCalled := fetched.upstreamCalled }

/-- The refresh-cookie path of `getBearerFromEvent`. -/
def getBearerCookiePath (req : AuthRequest) (now : Int) (cache : AccessCache)
    (refreshResponse : Except ApiError UserCredentials) : BearerFetch :=
  match getStoredRefresh req with
  | none => { token := Except.ok none, cache := cache, upstreamCalled := false }
  | some stored =>
    if refreshExpired stored now then
      { token := Except.ok none, cache := cache, upstreamCalled := false }
    else
      bearerFromFetch
        (getAccessTokenForRefresh cache stored.refresh_token now refreshResponse)

/-- `getBearerFromEvent` (`sso-auth.ts` lines 296–306): an `Authorization`
header matching the bearer pattern short-circuits; otherwise the refresh
cookie drives a cache-or-refresh token fetch.  (`Date.now()` is read twice in
the source within the same request; both reads are modelled by `now`.) -/
def getBearerFromEvent (req : AuthRequest) (now : Int) (cache : AccessCache)
    (refreshResponse : Except ApiError UserCredentials) : BearerFetch :=
  match req.authorizationHeader with
  | some incoming =>
    if incoming ≠ "" ∧ matchesBearerPattern incoming then
      { token := Except.ok (some incoming), cache := cache, upstreamCalled := false }
    else getBearerCookiePath req now cache refreshResponse
  | none => getBearerCookiePath req now cache refreshResponse

/-- Result of `getUserFromEvent`. -/
structure UserFetch where
  user : Except ApiError (Option UserCredentials)
  cache : AccessCache
  upstreamCalled : Bool

/-- The refresh branch of `getUserFromEvent` (mirrors `refreshAndCache`; the
`storeRefresh` cookie rewrite is again outside the stated properties). -/
def getUserRefreshPath (refreshToken : String) (now : Int) (cache : AccessCache)
    (refreshResponse : Except ApiError UserCredentials) : UserFetch :=
  match refreshResponse with
  | Except.error e => { user := Except.error e, cache := cache, upstreamCalled := true }
  | Except.ok resp =>
    let refreshed := userRefreshWithToken resp now
    { user := Except.ok (some refreshed),
      cache := trimAccessCacheIfNeeded (cacheSet cache refreshToken
        { access_token := refreshed.jwt.access_token,
          expires_at := getJwtExpiresAt (some refreshed.jwt.access_token),
          last_used_at := now }),
      upstreamCalled := true }

/-- `getUserFromEvent` (`sso-auth.ts` lines 308–330): serve the identity from
a fresh cached access token when its unverified claims reconstruct a user,
else refresh upstream.  Note the `last_used_at` touch happens before the
reconstruction attempt, so a failed reconstruction still falls through to the
refresh with the touched cache. -/
def getUserFromEvent (req : AuthRequest) (now : Int) (cache : AccessCache)
    (refreshResponse : Except ApiError UserCredentials) : UserFetch :=
  match getStoredRefresh req with
  | none => { user := Except.ok none, cache := cache, upstreamCalled := false }
  | some stored =>
    if refreshExpired stored now then
      { user := Except.ok none, cache := cache, upstreamCalled := false }
    else
      match cacheGet cache stored.refresh_token with
      | some cached =>
        if isAccessExpiringSoon (some cached) now then
          getUserRefreshPath stored.refresh_token now cache refreshResponse
        else
          match userFromAccessToken cached.access_token now with
          | some u =>
            { user := Except.ok (some u),
              cache := cacheTouch cache stored.refresh_token now,
              upstreamCalled := false }
          | none =>
            getUserRefreshPath stored.refresh_token now
              (cacheTouch cache stored.refresh_token now) refreshResponse
      | none => getUserRefreshPath stored.refresh_token now cache refreshResponse

/-- An HTTP response as far as the hook shapes it. -/
structure HttpResponse where
  status : Nat
  body : Option String
  contentType : Option String
  cacheControl : Option String
  location : Option String
deriving DecidableEq

/-- Observable outcome of one `handle` invocation: the response (or the
downstream `resolve`), the request-scoped locals, whether
`clearAuthCookies` ran, and how many upstream identity-provider refresh
calls and verifier (JWKS) invocations were made. -/
structure HandleOutcome where
  response : HttpResponse
  resolvedNormally : Bool
  localsUser : Option UserCredentials
  localsBearer : Option String
  cookieCleared : Bool
  upstreamRefreshCalls : Nat
  verifierCalls : Nat
deriving DecidableEq

/-- The 401 JSON response of the API denial branch. -/
def unauthorizedResponse : HttpResponse :=
  { status := 401, body := some "\x7b\"error\":\"Unauthorized\"\x7d",
    contentType := some "application/json", cacheControl := some "no-store",
    location := none }

/-- `redirect(303, location)`. -/
def redirectResponse (loc : String) : HttpResponse :=
  { status := 303, body := none, contentType := none, cacheControl := none,
    location := some loc }

/-- Stand-in for `resolve(event)` (the downstream handler's response). -/
def resolvedResponse : HttpResponse :=
  { status := 200, body := none, contentType := none, cacheControl := none,
    location := none }

/-- `/login?returnTo=${encodeURIComponent(pathname + search)}`. -/
def loginRedirectLocation (pathname search : String) : String :=
  "/login?returnTo=" ++ String.mk (encodeURIComponentChars (pathname ++ search).data)

/-- JS `s.startsWith(p)`, kernel-computable: prefix test on the code points. -/
def jsStartsWith (s p : String) : Bool :=
  p.data.isPrefixOf s.data

/-- `pathname === '/' || pathname.startsWith('/api/')`. -/
def isProtectedPath (pathname : String) : Bool :=
  pathname == "/" || jsStartsWith pathname "/api/"

/-- The missing-bearer denial: 401 JSON under `/api/`, otherwise the 303
login redirect; `cleared` records whether the preceding catch block ran
`clearAuthCookies`. -/
def denyOutcome (pathname search : String) (cleared : Bool)
    (upstream verifier : Nat) : HandleOutcome :=
  if jsStartsWith pathname "/api/" then
    { response := unauthorizedResponse, resolvedNormally := false,
      localsUser := none, localsBearer := none, cookieCleared := cleared,
      upstreamRefreshCalls := upstream, verifierCalls := verifier }
  else
    { response := redirectResponse (loginRedirectLocation pathname search),
      resolvedNormally := false, localsUser := none, localsBearer := none,
      cookieCleared := cleared, upstreamRefreshCalls := upstream,
      verifierCalls := verifier }

/-- The authorized tail of `handle`: populate the locals via
`getUserFromEvent` inside a swallow-all `try`, then `resolve`. -/
def resolveWithUser (req : AuthRequest) (now : Int) (bearer : String)
    (cache1 : AccessCache) (upstream1 verifier1 : Nat)
    (refreshResponse : Except ApiError UserCredentials) : HandleOutcome :=
  let uf := getUserFromEvent req now cache1 refreshResponse
  match uf.user with
  | Except.error _ =>
    { response := resolvedResponse, resolvedNormally := true, localsUser := none,
      localsBearer := none, cookieCleared := false,
      upstreamRefreshCalls := upstream1 + (cond uf.upstreamCalled 1 0),
      verifierCalls := verifier1 }
  | Except.ok userOpt =>
    { response := resolvedResponse, resolvedNormally := true,
      localsUser := userOpt, localsBearer := some bearer, cookieCleared := false,
      upstreamRefreshCalls := upstream1 + (cond uf.upstreamCalled 1 0),
      verifierCalls := verifier1 }

/-- The `handle` hook (`src/hooks.server.ts`).  `kcEnabled` models
`isKeycloakEnabled()`; `verifyToken` is the configured
`verifyKeycloakAccessToken` as an oracle (every invocation touches the JWKS
key set, counted in `verifierCalls`); `refreshResponse` is the identity
provider's answer to `/user/refresh` for this request.  The `Except.error`
result models an exception escaping the hook: inside the `catch` block the
diagnostic `inspectJwt(maybeToken)` call runs *before* `clearAuthCookies`,
so a `TypeError` thrown there aborts the hook with the cookie still set. -/
def handle (pathname search : String) (req : AuthRequest) (now : Int)
    (cache : AccessCache) (kcEnabled : Bool)
    (refreshResponse : Except ApiError UserCredentials)
    (verifyToken : String → Except String (List (String × Json))) :
    Except String HandleOutcome :=
  if !isProtectedPath pathname then
    Except.ok
      { response := resolvedResponse
        resolvedNormally := true
        localsUser := none
        localsBearer := none
        cookieCleared := false
        upstreamRefreshCalls := 0
        verifierCalls := 0 }
  else
    let fetched := getBearerFromEvent req now cache refreshResponse
    let upstream1 := cond fetched.upstreamCalled 1 0
    match fetched.token with
    | Except.error _ =>
      Except.ok (denyOutcome pathname search true upstream1 0)
    | Except.ok none =>
      Except.ok (denyOutcome pathname search false upstream1 0)
    | Except.ok (some b) =>
      let token := stripBearerToken b
      if token ≠ "" ∧ kcEnabled then
        match verifyToken token with
        | Except.ok _ =>
          Except.ok (resolveWithUser req now b fetched.cache upstream1 1 refreshResponse)
        | Except.error _ =>
          match inspectJwt token with
          | Except.error te => Except.error te
          | Except.ok _ => Except.ok (denyOutcome pathname search true upstream1 1)
      else
        Except.ok (resolveWithUser req now b fetched.cache upstream1 0 refreshResponse)

theorem jsonStrMatch_iff (expected : String) (j : Json) :
    (match j with | Json.str s => s == expected | _ => false) = true ↔
      j = Json.str expected := by
  cases j <;> simp

theorem audOk_iff (payload : List (String × Json)) (expected : String) :
    ((match jsLookup payload "aud" with
      | some (Json.str s) => s == expected
      | some (Json.arr l) =>
        l.any (fun j => match j with | Json.str s => s == expected | _ => false)
      | _ => false) = true) ↔
      ((∃ s, jsLookup payload "aud" = some (Json.str s) ∧ s = expected) ∨
       (∃ l, jsLookup payload "aud" = some (Json.arr l) ∧ Json.str expected ∈ l)) := by
  cases h : jsLookup payload "aud" with
  | none => simp
  | some j =>
    cases j with
    | null => simp
    | bool b => simp
    | num n => simp
    | str s =>
      simp only [beq_iff_eq]
      constructor
      · intro hs
        exact Or.inl ⟨s, rfl, hs⟩
      · rintro (⟨s2, hs2, hse⟩ | ⟨l2, hl2, _⟩)
        · injection hs2 with hh
          injection hh with hh2
          rw [hh2, hse]
        · exact absurd hl2 (by simp)
    | arr l =>
      simp only [List.any_eq_true]
      constructor
      · rintro ⟨j, hj, hm⟩
        exact Or.inr ⟨l, rfl, ((jsonStrMatch_iff expected j).mp hm) ▸ hj⟩
      · rintro (⟨s, hs, _⟩ | ⟨l2, hl, hm⟩)
        · exact absurd hs (by simp)
        · have hle : l = l2 := by
            injection hl with hh
            injection hh
          subst hle
          exact ⟨Json.str expected, hm, by simp⟩
    | obj o => simp

theorem azpOk_iff (payload : List (String × Json)) (expected : String) :
    (((match jsLookup payload "azp" with
      | some (Json.str s) => some s
      | _ => none) == some expected) = true) ↔
      jsLookup payload "azp" = some (Json.str expected) := by
  cases h : jsLookup payload "azp" with
  | none => simp
  | some j =>
    cases j with
    | str s =>
      simp only [beq_iff_eq]
      constructor
      · intro hs
        injection hs with hh
        rw [hh]
      · intro hs
        injection hs with hh
        injection hh with hh2
        rw [hh2]
    | null => simp
    | bool b => simp
    | num n => simp
    | arr l => simp
    | obj o => simp

theorem verifyKeycloak_ok_iff (expected : String) (payload : List (String × Json)) :
    verifyKeycloakAccessToken expected payload = Except.ok payload ↔
      (((∃ s, jsLookup payload "aud" = some (Json.str s) ∧ s = expected) ∨
        (∃ l, jsLookup payload "aud" = some (Json.arr l) ∧ Json.str expected ∈ l)) ∨
       jsLookup payload "azp" = some (Json.str expected)) := by
  have hA := audOk_iff payload expected
  have hZ := azpOk_iff payload expected
  rw [verifyKeycloakAccessToken]
  cases hAb : (match jsLookup payload "aud" with
    | some (Json.str s) => s == expected
    | some (Json.arr l) =>
      l.any (fun j => match j with | Json.str s => s == expected | _ => false)
    | _ => false) with
  | false =>
    rw [hAb] at hA
    cases hZb : ((match jsLookup payload "azp" with
      | some (Json.str s) => some s
      | _ => none) == some expected) with
    | false =>
      rw [hZb] at hZ
      refine iff_of_false (by simp) ?_
      rintro (p | p)
      · exact absurd (hA.mpr p) (by simp)
      · exact absurd (hZ.mpr p) (by simp)
    | true =>
      rw [hZb] at hZ
      exact iff_of_true (by simp) (Or.inr (hZ.mp rfl))
  | true =>
    rw [hAb] at hA
    exact iff_of_true (by simp) (Or.inl (hA.mp rfl))

theorem verifyKeycloak_error_of_not (expected : String)
    (payload : List (String × Json))
    (hnp : ¬ (((∃ s, jsLookup payload "aud" = some (Json.str s) ∧ s = expected) ∨
        (∃ l, jsLookup payload "aud" = some (Json.arr l) ∧ Json.str expected ∈ l)) ∨
       jsLookup payload "azp" = some (Json.str expected))) :
    verifyKeycloakAccessToken expected payload =
      Except.error ("Keycloak token is not issued for client \"" ++ expected ++ "\"") := by
  have hA := audOk_iff payload expected
  have hZ := azpOk_iff payload expected
  have hAf : (match jsLookup payload "aud" with
      | some (Json.str s) => s == expected
      | some (Json.arr l) =>
        l.any (fun j => match j with | Json.str s => s == expected | _ => false)
      | _ => false) = false := by
    cases hAb : (match jsLookup payload "aud" with
      | some (Json.str s) => s == expected
      | some (Json.arr l) =>
        l.any (fun j => match j with | Json.str s => s == expected | _ => false)
      | _ => false)
    · rfl
    · rw [hAb] at hA
      exact absurd (Or.inl (hA.mp rfl)) hnp
  have hZf : ((match jsLookup payload "azp" with
      | some (Json.str s) => some s
      | _ => none) == some expected) = false := by
    cases hZb : ((match jsLookup payload "azp" with
      | some (Json.str s) => some s
      | _ => none) == some expected)
    · rfl
    · rw [hZb] at hZ
      exact absurd (Or.inr (hZ.mp rfl)) hnp
  rw [verifyKeycloakAccessToken]
  rw [hAf, hZf]
  rfl

/-- C1: for every token whose signature, `exp` and `nbf` checks pass (i.e.
for every payload `jwtVerify` hands back), `verifyKeycloakAccessToken`
accepts iff the `aud` claim equals the expected client id (string form) or
contains it (array form), or the `azp` claim equals the expected client id;
when neither holds it fails with the audience-mismatch error.  In particular
a payload with `aud = ["other-client"]` and `azp = "expected-client"` is
accepted, and one with `aud = "other-client"` and no `azp` is rejected. -/
theorem verifyKeycloakAccessToken_audience_check :
    (∀ (expected : String) (payload : List (String × Json)),
      (verifyKeycloakAccessToken expected payload = Except.ok payload ↔
        (((∃ s, jsLookup payload "aud" = some (Json.str s) ∧ s = expected) ∨
          (∃ l, jsLookup payload "aud" = some (Json.arr l) ∧ Json.str expected ∈ l)) ∨
         jsLookup payload "azp" = some (Json.str expected))) ∧
      (¬ (((∃ s, jsLookup payload "aud" = some (Json.str s) ∧ s = expected) ∨
           (∃ l, jsLookup payload "aud" = some (Json.arr l) ∧ Json.str expected ∈ l)) ∨
          jsLookup payload "azp" = some (Json.str expected)) →
        verifyKeycloakAccessToken expected payload =
          Except.error ("Keycloak token is not issued for client \"" ++ expected ++ "\""))) ∧
    verifyKeycloakAccessToken "expected-client"
      [("aud", Json.arr [Json.str "other-client"]), ("azp", Json.str "expected-client")] =
      Except.ok
        [("aud", Json.arr [Json.str "other-client"]),
         ("azp", Json.str "expected-client")] ∧
    verifyKeycloakAccessToken "expected-client" [("aud", Json.str "other-client")] =
      Except.error "Keycloak token is not issued for client \"expected-client\"" := by
  refine ⟨fun expected payload =>
    ⟨verifyKeycloak_ok_iff expected payload,
     verifyKeycloak_error_of_not expected payload⟩, by rfl, by rfl⟩

theorem refreshAndCache_upstream (cache : AccessCache) (rt : String) (now : Int)
    (r : Except ApiError UserCredentials) :
    (refreshAndCache cache rt now r).upstreamCalled = true := by
  cases r <;> rfl

theorem isAccessExpiringSoon_false_iff (e : AccessCacheEntry) (now : Int) :
    isAccessExpiringSoon (some e) now = false ↔
      e.access_token ≠ "" ∧
        ∃ t, e.expires_at = some t ∧ t ≠ 0 ∧ 20000 < t - now := by
  rw [isAccessExpiringSoon]
  by_cases h1 : e.access_token = ""
  · simp [h1]
  · simp only [h1, if_false]
    cases he : e.expires_at with
    | none => simp [h1]
    | some t =>
      by_cases h2 : t = 0
      · simp [h1, h2]
      · simp only [h2, if_false, ACCESS_REFRESH_SKEW_MS, decide_eq_false_iff_not,
          not_le]
        constructor
        · intro hlt
          exact ⟨h1, t, rfl, h2, hlt⟩
        · rintro ⟨_, t2, ht2, _, hlt⟩
          injection ht2 with hh
          rw [hh]
          exact hlt

/-- C2: `getAccessTokenForRefresh` serves a cached access token without an
upstream refresh call only if the cached entry has a present `expires_at`
with `expires_at - now` strictly greater than the 20000 ms skew; an entry
whose access token has no parseable expiry (`expires_at = none`) is never
served from the cache, so every call for that refresh token performs an
upstream refresh. -/
theorem getAccessTokenForRefresh_cache_discipline :
    ∀ (cache : AccessCache) (rt : String) (now : Int)
      (r : Except ApiError UserCredentials),
      ((getAccessTokenForRefresh cache rt now r).upstreamCalled = false →
        ∃ e t, cacheGet cache rt = some e ∧ e.expires_at = some t ∧
          20000 < t - now) ∧
      (∀ e, cacheGet cache rt = some e → e.expires_at = none →
        (getAccessTokenForRefresh cache rt now r).upstreamCalled = true) := by
  intro cache rt now r
  cases hg : cacheGet cache rt with
  | none =>
    refine ⟨?_, ?_⟩
    · simp only [getAccessTokenForRefresh, hg, refreshAndCache_upstream]
      intro h
      exact absurd h (by simp)
    · intro e he _
      exact absurd he (by simp)
  | some cached =>
    by_cases hex : isAccessExpiringSoon (some cached) now = true
    · refine ⟨?_, ?_⟩
      · simp only [getAccessTokenForRefresh, hg, hex, if_true, refreshAndCache_upstream]
        intro h
        exact absurd h (by simp)
      · intro _ _ _
        simp only [getAccessTokenForRefresh, hg, hex, if_true, refreshAndCache_upstream]
    · have hexf : isAccessExpiringSoon (some cached) now = false := by
        cases hxx : isAccessExpiringSoon (some cached) now
        · rfl
        · exact absurd hxx hex
      obtain ⟨hne, t, ht, hz, hlt⟩ := (isAccessExpiringSoon_false_iff cached now).mp hexf
      refine ⟨?_, ?_⟩
      · intro _
        exact ⟨cached, t, rfl, ht, hlt⟩
      · intro e he hnone
        injection he with hh
        rw [← hh] at hnone
        rw [hnone] at ht
        exact absurd ht (by simp)

/-- Witness for C2 at a concrete fresh cache entry. -/
theorem getAccessTokenForRefresh_cache_discipline_witness :
    (getAccessTokenForRefresh
      [("rt", AccessCacheEntry.mk "tok" (some 100000) 0)] "rt" 0
      (Except.error (ApiError.mk "unreachable" 502 ""))).upstreamCalled = false ∧
    ∃ e t, cacheGet [("rt", AccessCacheEntry.mk "tok" (some 100000) 0)] "rt" =
      some e ∧ e.expires_at = some t ∧ 20000 < t - 0 := by
  refine ⟨by rfl, ?_⟩
  exact (getAccessTokenForRefresh_cache_discipline
    [("rt", AccessCacheEntry.mk "tok" (some 100000) 0)] "rt" 0
    (Except.error (ApiError.mk "unreachable" 502 ""))).1 (by rfl)

/-- A concrete identity-provider refresh response used by concrete
evaluations below. -/
def sampleCreds : UserCredentials :=
  { id := "u1", username := "user", email := none, first_name := none,
    last_name := none,
    jwt := { access_token := "tokA", refresh_token := none, expires_in := none,
             refresh_expires_in := none, id_token := none },
    issued_at := 0 }

/-- C7 counterexample: a refresh cookie whose `refresh_expires_at` is `0` is
non-null and strictly in the past at `now = 1`, yet `getBearerFromEvent`
performs an upstream refresh instead of returning null — JavaScript
truthiness makes the guard skip the falsy timestamp `0`. -/
theorem getBearerFromEvent_zero_expiry_counterexample :
    decodeRefreshCookie (encodeRefreshCookie (RefreshCookie.mk "t" (some 0))) =
      some (RefreshCookie.mk "t" (some 0)) ∧
    (0 : Int) < 1 ∧
    (getBearerFromEvent (AuthRequest.mk none
        (some (encodeRefreshCookie (RefreshCookie.mk "t" (some 0))))) 1 []
      (Except.ok sampleCreds)).upstreamCalled = true ∧
    (getBearerFromEvent (AuthRequest.mk none
        (some (encodeRefreshCookie (RefreshCookie.mk "t" (some 0))))) 1 []
      (Except.ok sampleCreds)).token = Except.ok (some "Bearer tokA") := by
  refine ⟨by decide, by norm_num, by decide, by rfl⟩

/-- C7 (amended): with no `Authorization` header and a cookie decoding to
`stored`, a non-null **and nonzero** `refresh_expires_at` strictly less than
`now` makes `getBearerFromEvent` return null with the cache untouched and no
upstream call; the comparison is strict, so a session whose
`refresh_expires_at` equals `now` (and, by falsiness, one whose timestamp is
`0`) still proceeds to the cache-or-refresh token fetch. -/
theorem getBearerFromEvent_expiry_check :
    ∀ (req : AuthRequest) (now : Int) (cache : AccessCache)
      (r : Except ApiError UserCredentials) (stored : RefreshCookie),
      req.authorizationHeader = none →
      getStoredRefresh req = some stored →
      ((∀ t, stored.refresh_expires_at = some t → t ≠ 0 → t < now →
        getBearerFromEvent req now cache r =
          { token := Except.ok none, cache := cache, upstreamCalled := false }) ∧
       (stored.refresh_expires_at = some now →
        getBearerFromEvent req now cache r =
          bearerFromFetch (getAccessTokenForRefresh cache stored.refresh_token now r))) := by
  intro req now cache r stored hh hs
  have hcp : getBearerFromEvent req now cache r = getBearerCookiePath req now cache r := by
    rw [getBearerFromEvent]
    cases hah : req.authorizationHeader with
    | none => rfl
    | some a => exact absurd (hah ▸ hh) (by simp)
  refine ⟨?_, ?_⟩
  · intro t ht hz hlt
    have hexp : refreshExpired stored now = true := by
      simp only [refreshExpired, ht]
      rw [if_neg hz]
      simp only [decide_eq_true_eq, gt_iff_lt]
      omega
    rw [hcp]
    simp only [getBearerCookiePath, hs, hexp, if_true]
  · intro ht
    have hexp : refreshExpired stored now = false := by
      simp only [refreshExpired, ht]
      by_cases hz : now = 0
      · rw [if_pos hz]
      · rw [if_neg hz]
        simp only [decide_eq_false_iff_not, gt_iff_lt]
        omega
    rw [hcp]
    simp only [getBearerCookiePath, hs, hexp, if_false]
    simp

/-- Witness for the amended C7 at a concrete expired cookie. -/
theorem getBearerFromEvent_expiry_check_witness :
    (AuthRequest.mk none
      (some (encodeRefreshCookie (RefreshCookie.mk "t" (some 5))))).authorizationHeader
      = none ∧
    getStoredRefresh (AuthRequest.mk none
      (some (encodeRefreshCookie (RefreshCookie.mk "t" (some 5))))) =
      some (RefreshCookie.mk "t" (some 5)) ∧
    getBearerFromEvent (AuthRequest.mk none
        (some (encodeRefreshCookie (RefreshCookie.mk "t" (some 5))))) 10 []
      (Except.ok sampleCreds) =
      { token := Except.ok none, cache := [], upstreamCalled := false } := by
  refine ⟨rfl, by decide, ?_⟩
  exact (getBearerFromEvent_expiry_check
    (AuthRequest.mk none (some (encodeRefreshCookie (RefreshCookie.mk "t" (some 5)))))
    10 [] (Except.ok sampleCreds) (RefreshCookie.mk "t" (some 5)) rfl (by decide)).1
    5 rfl (by decide) (by norm_num)

/-- C8: a request with no `Authorization` header and no refresh cookie to a
path under `/api/` is answered by the hook with status 401, the JSON body
`\x7b"error":"Unauthorized"\x7d`, `Cache-Control: no-store`, no
`clearAuthCookies`, and — crucially — zero upstream identity-provider calls
and zero verifier (key-set) invocations. -/
theorem handle_unauthenticated_api_401 :
    ∀ (pathname search : String) (now : Int) (cache : AccessCache) (kc : Bool)
      (r : Except ApiError UserCredentials)
      (verify : String → Except String (List (String × Json))),
      jsStartsWith pathname "/api/" = true →
      handle pathname search (AuthRequest.mk none none) now cache kc r verify =
        Except.ok
          { response := unauthorizedResponse, resolvedNormally := false,
            localsUser := none, localsBearer := none, cookieCleared := false,
            upstreamRefreshCalls := 0, verifierCalls := 0 } ∧
      unauthorizedResponse.status = 401 ∧
      unauthorizedResponse.body = some "\x7b\"error\":\"Unauthorized\"\x7d" ∧
      unauthorizedResponse.cacheControl = some "no-store" ∧
      unauthorizedResponse.contentType = some "application/json" := by
  intro pathname search now cache kc r verify hapi
  refine ⟨?_, rfl, rfl, rfl, rfl⟩
  have hprot : isProtectedPath pathname = true := by
    rw [isProtectedPath, hapi]
    simp
  have hfetch : getBearerFromEvent (AuthRequest.mk none none) now cache r =
      { token := Except.ok none, cache := cache, upstreamCalled := false } := rfl
  rw [handle, hprot]
  simp only [Bool.not_true, Bool.false_eq_true, if_false, hfetch, cond_false]
  rw [denyOutcome, if_pos hapi]

/-- Witness for C8 at the concrete path `/api/videos`. -/
theorem handle_unauthenticated_api_401_witness :
    (jsStartsWith "/api/videos" "/api/" = true) ∧
    handle "/api/videos" "" (AuthRequest.mk none none) 0 [] true
      (Except.error (ApiError.mk "unused" 502 ""))
      (fun _ => Except.error "unused") =
      Except.ok
        { response := unauthorizedResponse, resolvedNormally := false,
          localsUser := none, localsBearer := none, cookieCleared := false,
          upstreamRefreshCalls := 0, verifierCalls := 0 } := by
  refine ⟨by decide, ?_⟩
  exact (handle_unauthenticated_api_401 "/api/videos" "" 0 [] true
    (Except.error (ApiError.mk "unused" 502 ""))
    (fun _ => Except.error "unused") (by decide)).1

theorem denyOutcome_fields (pathname search : String) (cleared : Bool)
    (upstream verifier : Nat) :
    (denyOutcome pathname search cleared upstream verifier).cookieCleared = cleared ∧
    (denyOutcome pathname search cleared upstream verifier).resolvedNormally = false ∧
    (jsStartsWith pathname "/api/" = false →
      (denyOutcome pathname search cleared upstream verifier).response =
        redirectResponse (loginRedirectLocation pathname search)) ∧
    (jsStartsWith pathname "/api/" = true →
      (denyOutcome pathname search cleared upstream verifier).response =
        unauthorizedResponse) := by
  rw [denyOutcome]
  by_cases h : jsStartsWith pathname "/api/" = true
  · rw [if_pos h]
    exact ⟨rfl, rfl, fun hf => by rw [hf] at h; exact Bool.noConfusion h,
      fun _ => rfl⟩
  · rw [if_neg h]
    exact ⟨rfl, rfl, fun _ => rfl, fun ht => absurd ht h⟩

/-- C9 counterexample: on the protected path `/`, an `Authorization: Bearer
x.NQ` header whose JWT payload segment decodes to the JSON primitive `5`
makes the catch-block diagnostic `inspectJwt` throw a `TypeError` (the `in`
operator on a primitive) *before* `clearAuthCookies` runs, so the hook
aborts with the exception and the cookie is never cleared — the claimed
"cookie is cleared and the request is denied" fails. -/
theorem handle_wrongSignature_typeerror_counterexample :
    handle "/" "" (AuthRequest.mk (some "Bearer x.NQ") none) 0 [] true
        (Except.error (ApiError.mk "unused" 502 ""))
        (fun _ => Except.error "signature verification failed") =
      Except.error "TypeError: cannot use in operator on a primitive payload" ∧
    ¬ ∃ out, handle "/" "" (AuthRequest.mk (some "Bearer x.NQ") none) 0 [] true
        (Except.error (ApiError.mk "unused" 502 ""))
        (fun _ => Except.error "signature verification failed") =
      Except.ok out ∧ out.cookieCleared = true := by
  have h : handle "/" "" (AuthRequest.mk (some "Bearer x.NQ") none) 0 [] true
      (Except.error (ApiError.mk "unused" 502 ""))
      (fun _ => Except.error "signature verification failed") =
      Except.error "TypeError: cannot use in operator on a primitive payload" := rfl
  refine ⟨h, ?_⟩
  rintro ⟨out, hout, _⟩
  rw [h] at hout
  exact Except.noConfusion hout

/-- C9 (amended): on a protected path, when obtaining the bearer fails
(`getBearerFromEvent` throws) or the verifier rejects the token *and* the
diagnostic `inspectJwt` returns normally (its payload is not a truthy JSON
primitive), the hook clears the session cookie and denies the request: a
303 redirect to the login entry point off the API prefix, the 401 JSON
response under it.  (Unamended, the claim is false: a truthy-primitive
payload makes `inspectJwt` throw before `clearAuthCookies`, see the
counterexample.) -/
theorem handle_failure_clears_and_denies :
    ∀ (pathname search : String) (req : AuthRequest) (now : Int)
      (cache : AccessCache) (kc : Bool) (r : Except ApiError UserCredentials)
      (verify : String → Except String (List (String × Json))),
      isProtectedPath pathname = true →
      ((∃ e, (getBearerFromEvent req now cache r).token = Except.error e) ∨
       (∃ b, (getBearerFromEvent req now cache r).token = Except.ok (some b) ∧
          stripBearerToken b ≠ "" ∧ kc = true ∧
          (∃ msg, verify (stripBearerToken b) = Except.error msg) ∧
          (∃ cl, inspectJwt (stripBearerToken b) = Except.ok cl))) →
      ∃ out, handle pathname search req now cache kc r verify = Except.ok out ∧
        out.cookieCleared = true ∧ out.resolvedNormally = false ∧
        (jsStartsWith pathname "/api/" = false →
          out.response = redirectResponse (loginRedirectLocation pathname search)) ∧
        (jsStartsWith pathname "/api/" = true →
          out.response = unauthorizedResponse) := by
  intro pathname search req now cache kc r verify hprot hfail
  rw [handle, hprot]
  simp only [Bool.not_true, Bool.false_eq_true, if_false]
  rcases hfail with ⟨e, he⟩ | ⟨b, hb, hne, hkc, ⟨msg, hmsg⟩, ⟨cl, hins⟩⟩
  · simp only [he]
    exact ⟨_, rfl, (denyOutcome_fields pathname search true _ 0).1,
      (denyOutcome_fields pathname search true _ 0).2.1,
      (denyOutcome_fields pathname search true _ 0).2.2.1,
      (denyOutcome_fields pathname search true _ 0).2.2.2⟩
  · simp only [hb]
    rw [if_pos ⟨hne, hkc⟩]
    simp only [hmsg, hins]
    exact ⟨_, rfl, (denyOutcome_fields pathname search true _ 1).1,
      (denyOutcome_fields pathname search true _ 1).2.1,
      (denyOutcome_fields pathname search true _ 1).2.2.1,
      (denyOutcome_fields pathname search true _ 1).2.2.2⟩

/-- Witness for C9 on `/` with a well-formed-but-rejected token `a.e30`
(payload `\x7b\x7d`): the hook clears the cookie and answers the 303 login
redirect. -/
theorem handle_failure_clears_and_denies_witness :
    isProtectedPath "/" = true ∧
    ∃ out, handle "/" "" (AuthRequest.mk (some "Bearer a.e30") none) 0 [] true
        (Except.error (ApiError.mk "unused" 502 ""))
        (fun _ => Except.error "signature invalid") = Except.ok out ∧
      out.cookieCleared = true ∧ out.resolvedNormally = false ∧
      (jsStartsWith "/" "/api/" = false →
        out.response = redirectResponse (loginRedirectLocation "/" "")) ∧
      (jsStartsWith "/" "/api/" = true → out.response = unauthorizedResponse) :=
  ⟨rfl, handle_failure_clears_and_denies "/" ""
    (AuthRequest.mk (some "Bearer a.e30") none) 0 [] true
    (Except.error (ApiError.mk "unused" 502 ""))
    (fun _ => Except.error "signature invalid") rfl
    (Or.inr ⟨"Bearer a.e30", rfl, by decide, rfl,
      ⟨"signature invalid", rfl⟩, ⟨some [], rfl⟩⟩)⟩

/-- C10 (code bug): `inspectJwt` is not total on structurally decodable
payloads — the token `x.NQ` has a payload segment that decodes to the JSON
primitive `5`, and the whitelist loop's `'iss' in payload` applies the
JavaScript `in` operator to a non-object, throwing a `TypeError` out of
`inspectJwt` instead of returning `null` or a whitelisted record. -/
theorem inspectJwt_primitive_payload_throws :
    decodeJwtPayload "x.NQ" = some (Json.num 5) ∧
    inspectJwt "x.NQ" =
      Except.error "TypeError: cannot use in operator on a primitive payload" :=
  ⟨rfl, rfl⟩

/-- An access token whose payload declares `aud:"other"` (the header segment
is never read by the audited code). -/
def cexAccessToken : String :=
  String.mk ('h' :: '.' ::
    base64UrlEncode (utf8EncodeChars "\x7b\"aud\":\"other\"\x7d".data))

/-- An ID token whose payload declares `aud:"psysloptv"`, the first
acceptable audience of the legacy probing loop. -/
def cexIdToken : String :=
  String.mk ('h' :: '.' ::
    base64UrlEncode (utf8EncodeChars "\x7b\"aud\":\"psysloptv\"\x7d".data))

/-- Credentials whose access token matches no acceptable audience while the
ID token matches the first one. -/
def cexCreds : UserCredentials :=
  { id := "u1", username := "user", email := none, first_name := none,
    last_name := none,
    jwt := { access_token := cexAccessToken, refresh_token := none,
             expires_in := none, refresh_expires_in := none,
             id_token := some cexIdToken },
    issued_at := 0 }

/-- C4 counterexample: for credentials whose access token matches no
acceptable audience while the ID token declares the first acceptable
audience, the claimed probing would serve the ID token, but the current
`bearerForApi` — and the whole refresh-cookie path of `getBearerFromEvent` —
serves the access token. -/
theorem bearerForApi_no_probing_counterexample :
    tokenHasAudience (some cexAccessToken) "psysloptv" = false ∧
    tokenHasAudience (some cexAccessToken) "api.slopindustries.com" = false ∧
    tokenHasAudience (some cexIdToken) "psysloptv" = true ∧
    bearerForApi cexCreds = "Bearer " ++ cexAccessToken ∧
    bearerForApiLegacy cexCreds = "Bearer " ++ cexIdToken ∧
    "Bearer " ++ cexAccessToken ≠ "Bearer " ++ cexIdToken ∧
    (getBearerFromEvent (AuthRequest.mk none
        (some (encodeRefreshCookie (RefreshCookie.mk "rt" none)))) 0 []
      (Except.ok cexCreds)).token =
      Except.ok (some ("Bearer " ++ cexAccessToken)) := by
  exact ⟨by decide, by decide, by decide, rfl, by decide, by decide, by rfl⟩

theorem bearerFromFetch_refreshAndCache (cache : AccessCache) (rt : String)
    (now : Int) (r : Except ApiError UserCredentials) (b : String) :
    (bearerFromFetch (refreshAndCache cache rt now r)).token =
      Except.ok (some b) →
    ∃ c, r = Except.ok c ∧ b = "Bearer " ++ c.jwt.access_token := by
  intro h
  cases r with
  | error e => simp [refreshAndCache, bearerFromFetch] at h
  | ok c =>
    refine ⟨c, rfl, ?_⟩
    simp [refreshAndCache, bearerFromFetch, userRefreshWithToken] at h
    exact h.symm

/-- C4 (amended): the current code performs no audience probing at all —
`bearerForApi` is literally `Bearer $\x7baccess_token\x7d`, and on the
refresh-cookie path the bearer handed to downstream calls is always built
from an access token (the cached entry's, or the `access_token` of the
provider's refresh response), never from the ID token.  The probing the
claim describes survives only in the legacy module kept in
`hit-metrics.ts` (`bearerForApiLegacy`). -/
theorem bearerForApi_always_access_token :
    (∀ creds, bearerForApi creds = "Bearer " ++ creds.jwt.access_token) ∧
    (∀ req now cache r b, req.authorizationHeader = none →
      (getBearerFromEvent req now cache r).token = Except.ok (some b) →
      ∃ stored tok, getStoredRefresh req = some stored ∧
        b = "Bearer " ++ tok ∧
        ((∃ e, cacheGet cache stored.refresh_token = some e ∧
            tok = e.access_token) ∨
         (∃ c, r = Except.ok c ∧ tok = c.jwt.access_token))) := by
  constructor
  · intro creds; rfl
  · intro req now cache r b hhdr htok
    simp only [getBearerFromEvent, hhdr] at htok
    cases hsr : getStoredRefresh req with
    | none => simp [getBearerCookiePath, hsr] at htok
    | some stored =>
      simp only [getBearerCookiePath, hsr] at htok
      by_cases hexp : refreshExpired stored now = true
      · rw [if_pos hexp] at htok
        simp at htok
      · rw [if_neg hexp] at htok
        refine ⟨stored, ?_⟩
        rw [getAccessTokenForRefresh] at htok
        cases hcg : cacheGet cache stored.refresh_token with
        | some cached =>
          simp only [hcg] at htok
          by_cases hsoon : isAccessExpiringSoon (some cached) now = true
          · rw [if_pos hsoon] at htok
            obtain ⟨c, hc, hb⟩ := bearerFromFetch_refreshAndCache _ _ _ _ _ htok
            exact ⟨c.jwt.access_token, rfl, hb, Or.inr ⟨c, hc, rfl⟩⟩
          · rw [if_neg hsoon] at htok
            simp [bearerFromFetch] at htok
            exact ⟨cached.access_token, rfl, htok.symm,
              Or.inl ⟨cached, rfl, rfl⟩⟩
        | none =>
          simp only [hcg] at htok
          obtain ⟨c, hc, hb⟩ := bearerFromFetch_refreshAndCache _ _ _ _ _ htok
          exact ⟨c.jwt.access_token, rfl, hb, Or.inr ⟨c, hc, rfl⟩⟩

/-- Witness for C4 at a concrete cookie-path request: the served bearer is
`Bearer tokA`, the refresh response's access token. -/
theorem bearerForApi_always_access_token_witness :
    ((AuthRequest.mk none
        (some (encodeRefreshCookie (RefreshCookie.mk "rt" none)))).authorizationHeader
      = none) ∧
    (getBearerFromEvent (AuthRequest.mk none
        (some (encodeRefreshCookie (RefreshCookie.mk "rt" none)))) 0 []
      (Except.ok sampleCreds)).token = Except.ok (some "Bearer tokA") ∧
    ∃ stored tok,
      getStoredRefresh (AuthRequest.mk none
        (some (encodeRefreshCookie (RefreshCookie.mk "rt" none)))) = some stored ∧
      "Bearer tokA" = "Bearer " ++ tok ∧
      ((∃ e, cacheGet [] stored.refresh_token = some e ∧ tok = e.access_token) ∨
       (∃ c, (Except.ok sampleCreds : Except ApiError UserCredentials) =
          Except.ok c ∧ tok = c.jwt.access_token)) :=
  ⟨rfl, rfl,
    bearerForApi_always_access_token.2
      (AuthRequest.mk none
        (some (encodeRefreshCookie (RefreshCookie.mk "rt" none)))) 0 []
      (Except.ok sampleCreds) "Bearer tokA" rfl rfl⟩

/-- C5: for every session value with a non-empty `refresh_token`, decoding
the encoded cookie value returns the same session —
`decodeRefreshCookie (encodeRefreshCookie v) = some v`. -/
theorem refreshCookie_roundtrip (v : RefreshCookie)
    (hv : v.refresh_token ≠ "") :
    decodeRefreshCookie (encodeRefreshCookie v) = some v :=
  decode_encodeRefreshCookie v hv

/-- Witness for C5 at the session `("tok", 1234)`. -/
theorem refreshCookie_roundtrip_witness :
    (RefreshCookie.mk "tok" (some 1234)).refresh_token ≠ "" ∧
    decodeRefreshCookie (encodeRefreshCookie (RefreshCookie.mk "tok" (some 1234))) =
      some (RefreshCookie.mk "tok" (some 1234)) :=
  ⟨by decide,
    refreshCookie_roundtrip (RefreshCookie.mk "tok" (some 1234)) (by decide)⟩

/-- C6: the current decoder accepts the legacy encoding
(`encodeURIComponent` of standard base64 of the JSON) and recovers the same
session — hence the same refresh token — that it recovers from the modern
base64url encoding of the same value; and it tries the current scheme
first: whenever the modern branch succeeds, its result is the decoder's
result. -/
theorem refreshCookie_legacy_compat (v : RefreshCookie)
    (hv : v.refresh_token ≠ "") :
    decodeRefreshCookie (encodeRefreshCookieLegacy v) = some v ∧
    (decodeRefreshCookie (encodeRefreshCookieLegacy v)).map
        RefreshCookie.refresh_token =
      (decodeRefreshCookie (encodeRefreshCookie v)).map
        RefreshCookie.refresh_token ∧
    (∀ raw d, decodeRefreshCookieModernBranch raw = some d →
      decodeRefreshCookie raw = some d) := by
  refine ⟨decode_encodeRefreshCookieLegacy v hv, ?_, ?_⟩
  · rw [decode_encodeRefreshCookieLegacy v hv, decode_encodeRefreshCookie v hv]
  · intro raw d h
    rw [decodeRefreshCookie, h]

/-- Witness for C6 at the session `("tok2", 99)`. -/
theorem refreshCookie_legacy_compat_witness :
    (RefreshCookie.mk "tok2" (some 99)).refresh_token ≠ "" ∧
    (decodeRefreshCookie (encodeRefreshCookieLegacy (RefreshCookie.mk "tok2" (some 99))) =
      some (RefreshCookie.mk "tok2" (some 99)) ∧
    (decodeRefreshCookie (encodeRefreshCookieLegacy (RefreshCookie.mk "tok2" (some 99)))).map
        RefreshCookie.refresh_token =
      (decodeRefreshCookie (encodeRefreshCookie (RefreshCookie.mk "tok2" (some 99)))).map
        RefreshCookie.refresh_token ∧
    (∀ raw d, decodeRefreshCookieModernBranch raw = some d →
      decodeRefreshCookie raw = some d)) :=
  ⟨by decide,
    refreshCookie_legacy_compat (RefreshCookie.mk "tok2" (some 99)) (by decide)⟩

/-- Witness for C1: the `azp`-only token is accepted, the empty payload is
rejected with the audience error. -/
theorem verifyKeycloakAccessToken_audience_check_witness :
    verifyKeycloakAccessToken "c" [("azp", Json.str "c")] =
      Except.ok [("azp", Json.str "c")] ∧
    verifyKeycloakAccessToken "c" [] =
      Except.error "Keycloak token is not issued for client \"c\"" :=
  ⟨(verifyKeycloakAccessToken_audience_check.1 "c" [("azp", Json.str "c")]).1.mpr
      (Or.inr rfl),
   (verifyKeycloakAccessToken_audience_check.1 "c" []).2
      (by rintro ((⟨s, hs, _⟩ | ⟨l, hl, _⟩) | hz)
          · exact Option.noConfusion hs
          · exact Option.noConfusion hl
          · exact Option.noConfusion hz)⟩

/-- The refresh-token key of the `i`-th entry in the eviction scenario. -/
def natKey (i : Nat) : String := String.mk (natToDec i)

/-- The `i`-th cache entry of the eviction scenario: inserted with strictly
increasing `last_used_at = i`. -/
def scenEntry (i : Nat) : AccessCacheEntry :=
  { access_token := "t", expires_at := none, last_used_at := (i : Int) }

/-- Key/entry pair of the `i`-th scenario insertion. -/
def scenPair (i : Nat) : String × AccessCacheEntry := (natKey i, scenEntry i)

/-- The cache contents after `n` scenario insertions with no eviction. -/
def plainCache (n : Nat) : AccessCache := (List.range n).map scenPair

/-- Insert the first `n` scenario entries into an empty cache, trimming after
every insertion exactly as `refreshAndCache` does. -/
def insertScenario (n : Nat) : AccessCache :=
  (List.range n).foldl
    (fun c i => trimAccessCacheIfNeeded (cacheSet c (natKey i) (scenEntry i))) []

theorem natKey_inj : Function.Injective natKey := by
  intro i j h
  have hd : natToDec i = natToDec j := by
    have h2 := congrArg String.data h
    simpa [natKey] using h2
  have h1 : parseNat (natToDec i ++ []) = some (i, []) :=
    parseNat_natToDec i [] (fun c hc => Option.noConfusion hc)
  have h2 : parseNat (natToDec j ++ []) = some (j, []) :=
    parseNat_natToDec j [] (fun c hc => Option.noConfusion hc)
  rw [hd, h2] at h1
  injection h1 with h3
  exact (congrArg Prod.fst h3).symm

theorem cacheSet_fresh (cache : AccessCache) (k : String) (v : AccessCacheEntry)
    (h : ∀ p ∈ cache, p.1 ≠ k) : cacheSet cache k v = cache ++ [(k, v)] := by
  rw [cacheSet, if_neg]
  simp only [List.any_eq_true, beq_iff_eq, not_exists, not_and]
  intro p hp
  exact h p hp

theorem cacheDelete_no_key (l : AccessCache) (k : String)
    (h : ∀ p ∈ l, p.1 ≠ k) : cacheDelete l k = l := by
  rw [cacheDelete]
  apply List.filter_eq_self.mpr
  intro p hp
  simp [h p hp]

theorem foldl_delete_length_le :
    ∀ (ks : List (String × AccessCacheEntry)) (c : AccessCache),
      (ks.foldl (fun c e => cacheDelete c e.1) c).length ≤ c.length := by
  intro ks
  induction ks with
  | nil => intro c; exact Nat.le_refl _
  | cons e ks ih =>
    intro c
    calc (ks.foldl (fun c e => cacheDelete c e.1) (cacheDelete c e.1)).length
        ≤ (cacheDelete c e.1).length := ih _
      _ ≤ c.length := List.length_filter_le _ _

theorem foldl_delete_prefix :
    ∀ (pre suf : AccessCache), ((pre ++ suf).map Prod.fst).Nodup →
      pre.foldl (fun c e => cacheDelete c e.1) (pre ++ suf) = suf := by
  intro pre
  induction pre with
  | nil => intro suf _; rfl
  | cons e pre ih =>
    intro suf h
    rw [List.foldl_cons]
    have hnd := h
    rw [List.cons_append, List.map_cons, List.nodup_cons] at hnd
    have hdel : cacheDelete ((e :: pre) ++ suf) e.1 = pre ++ suf := by
      rw [List.cons_append, cacheDelete, List.filter_cons]
      have hp : (!(e.1 == e.1)) = false := by simp
      rw [hp]
      simp only [Bool.false_eq_true, if_false]
      rw [show List.filter (fun p => !(p.1 == e.1)) (pre ++ suf) =
          cacheDelete (pre ++ suf) e.1 from rfl]
      apply cacheDelete_no_key
      intro p hp2 hpe
      exact hnd.1 (hpe ▸ List.mem_map_of_mem Prod.fst hp2)
    rw [hdel]
    exact ih suf hnd.2

theorem plainCache_sorted (n : Nat) : List.Sorted cacheLe (plainCache n) := by
  rw [plainCache]
  refine (List.pairwise_map).mpr ?_
  refine (List.pairwise_lt_range n).imp ?_
  intro a b hab
  show ((a : Nat) : Int) ≤ ((b : Nat) : Int)
  exact_mod_cast Nat.le_of_lt hab

theorem plainCache_fresh (n : Nat) : ∀ p ∈ plainCache n, p.1 ≠ natKey n := by
  intro p hp
  rw [plainCache] at hp
  obtain ⟨i, hi, rfl⟩ := List.mem_map.mp hp
  rw [List.mem_range] at hi
  intro hk
  exact absurd (natKey_inj hk) (Nat.ne_of_lt hi)

theorem plainCache_snoc (n : Nat) :
    plainCache n ++ [(natKey n, scenEntry n)] = plainCache (n + 1) := by
  rw [plainCache, plainCache, List.range_succ, List.map_append]
  rfl

theorem plainCache_keys_nodup (n : Nat) : ((plainCache n).map Prod.fst).Nodup := by
  rw [plainCache, List.map_map]
  rw [show (Prod.fst ∘ scenPair) = natKey from rfl]
  exact List.Nodup.map natKey_inj (List.nodup_range n)

theorem insertScenario_succ (n : Nat) :
    insertScenario (n + 1) =
      trimAccessCacheIfNeeded
        (cacheSet (insertScenario n) (natKey n) (scenEntry n)) := by
  rw [insertScenario, insertScenario, List.range_succ, List.foldl_append]
  rfl

theorem insertScenario_eq_plain :
    ∀ n, n ≤ ACCESS_CACHE_MAX → insertScenario n = plainCache n := by
  intro n
  induction n with
  | zero => intro _; rfl
  | succ n ih =>
    intro hle
    rw [insertScenario_succ, ih (Nat.le_of_succ_le hle),
      cacheSet_fresh _ _ _ (plainCache_fresh n), plainCache_snoc,
      trimAccessCacheIfNeeded, if_pos]
    rw [plainCache, List.length_map, List.length_range]
    exact hle

theorem insertScenario_5001 :
    insertScenario 5001 =
      (List.range 4501).map (fun i => scenPair (500 + i)) := by
  have hsucc := insertScenario_succ 5000
  norm_num at hsucc
  rw [hsucc, insertScenario_eq_plain 5000 (by norm_num [ACCESS_CACHE_MAX]),
    cacheSet_fresh _ _ _ (plainCache_fresh 5000), plainCache_snoc]
  have hlen : (plainCache 5001).length = 5001 := by
    rw [plainCache, List.length_map, List.length_range]
  rw [trimAccessCacheIfNeeded, if_neg (by rw [hlen]; norm_num [ACCESS_CACHE_MAX])]
  rw [List.Sorted.insertionSort_eq (plainCache_sorted 5001)]
  rw [show max 1 (ACCESS_CACHE_MAX / 10) = 500 from by norm_num [ACCESS_CACHE_MAX]]
  have hsplit : plainCache 5001 =
      plainCache 500 ++ (List.range 4501).map (fun i => scenPair (500 + i)) := by
    rw [plainCache, plainCache, show (5001 : Nat) = 500 + 4501 from by norm_num,
      List.range_add, List.map_append, List.map_map]
    rfl
  have h500 : (plainCache 500).length = 500 := by
    rw [plainCache, List.length_map, List.length_range]
  rw [hsplit, List.take_left' h500]
  apply foldl_delete_prefix
  rw [← hsplit]
  exact plainCache_keys_nodup 5001

/-- C3: the access cache is bounded — one `set`-then-trim step starting at
or below `ACCESS_CACHE_MAX = 5000` entries always lands at or below 5000
(when the insertion overflows, the trim pass deletes the
`max 1 (5000 / 10) = 500` least-recently-used keys); and in the concrete
scenario of 5001 distinct refresh tokens inserted with strictly increasing
`last_used_at`, the resulting cache is exactly the 4501 most recent entries
— at most 5000 held, and the entry with the smallest `last_used_at`
(`natKey 0`) is evicted. -/
theorem accessCache_bounded :
    (∀ (cache : AccessCache) (k : String) (v : AccessCacheEntry),
      cache.length ≤ ACCESS_CACHE_MAX →
      (trimAccessCacheIfNeeded (cacheSet cache k v)).length ≤ ACCESS_CACHE_MAX) ∧
    insertScenario 5001 = (List.range 4501).map (fun i => scenPair (500 + i)) ∧
    (insertScenario 5001).length ≤ ACCESS_CACHE_MAX ∧
    cacheGet (insertScenario 5001) (natKey 0) = none := by
  refine ⟨?_, insertScenario_5001, ?_, ?_⟩
  · intro cache k v hlen
    by_cases h : (cacheSet cache k v).length ≤ ACCESS_CACHE_MAX
    · rw [trimAccessCacheIfNeeded, if_pos h]
      exact h
    · rw [trimAccessCacheIfNeeded, if_neg h]
      have hset : (cacheSet cache k v).length ≤ ACCESS_CACHE_MAX + 1 := by
        rw [cacheSet]
        split
        · rw [List.length_map]
          omega
        · rw [List.length_append]
          simp only [List.length_cons, List.length_nil]
          omega
      cases htk : ((cacheSet cache k v).insertionSort cacheLe).take
          (max 1 (ACCESS_CACHE_MAX / 10)) with
      | nil =>
        exfalso
        have hlt := congrArg List.length htk
        rw [List.length_take,
          (List.perm_insertionSort cacheLe (cacheSet cache k v)).length_eq] at hlt
        have hcm : (cacheSet cache k v).length = ACCESS_CACHE_MAX + 1 := by omega
        rw [hcm] at hlt
        norm_num [ACCESS_CACHE_MAX] at hlt
      | cons e rest =>
        rw [List.foldl_cons]
        have hmem : e ∈ cacheSet cache k v := by
          have h1 : e ∈ ((cacheSet cache k v).insertionSort cacheLe).take
              (max 1 (ACCESS_CACHE_MAX / 10)) := by
            rw [htk]
            exact List.mem_cons_self e rest
          exact (List.perm_insertionSort cacheLe (cacheSet cache k v)).subset
            (List.take_subset _ _ h1)
        have hdec : (cacheDelete (cacheSet cache k v) e.1).length <
            (cacheSet cache k v).length := by
          rw [cacheDelete]
          refine List.length_filter_lt_length_iff_exists.mpr ⟨e, hmem, ?_⟩
          simp
        have hfin := foldl_delete_length_le rest (cacheDelete (cacheSet cache k v) e.1)
        omega
  · rw [insertScenario_5001, List.length_map, List.length_range]
    norm_num [ACCESS_CACHE_MAX]
  · rw [insertScenario_5001, cacheGet]
    have hnone : List.find? (fun p => p.1 == natKey 0)
        ((List.range 4501).map (fun i => scenPair (500 + i))) = none := by
      apply List.find?_eq_none.mpr
      intro x hx
      obtain ⟨i, hi, rfl⟩ := List.mem_map.mp hx
      simp only [scenPair, beq_iff_eq]
      intro hk
      have := natKey_inj hk
      omega
    rw [hnone]
    rfl

/-- Witness for C3's invariant step at an empty cache. -/
theorem accessCache_bounded_witness :
    ([] : AccessCache).length ≤ ACCESS_CACHE_MAX ∧
    (trimAccessCacheIfNeeded
      (cacheSet [] "rt" (AccessCacheEntry.mk "t" none 0))).length ≤
      ACCESS_CACHE_MAX :=
  ⟨by decide,
   accessCache_bounded.1 [] "rt" (AccessCacheEntry.mk "t" none 0) (by decide)⟩

end SSO
